import Mathlib

/-!
Verification of the mulecolt media-organiser reconciliation engine.

This file gives a shallow embedding, in Lean 4, of the parts of the
repository `tjsheppard/mulecolt` (directory `apps/organiser/config/`) that
the frozen claims C1-C10 are about, and settles each claim against that
embedding:

* `tmdb_utils.py` — show structures, the absolute-ordering map and the
  file-to-episode matching strategies (claims C7, C8, C10);
* `constants.py` / `organiser.py` / `rd_api.py` / `resolve.py` — the four
  video-extension sets (claim C9);
* `rd_api.py` — the Real-Debrid request retry loop (claim C6);
* `media_resolver.py` / `organiser.py` — the PocketBase store model, the
  duplicate resolvers and the per-episode contest loop of `_identify_show`
  (claims C4, C5);
* `organiser.py` — Phase C (`phase_c_detect_removed`, claim C2) and
  Phase D (`phase_d_build_symlinks` with `_prune_empty_dirs`,
  claims C1, C3).

Modelling conventions: Python dicts keyed by paths are association lists
with unique keys; the filesystem is a pair of finite sets (symlinks with
their stored link text, directories); machine-independent integers are
`Nat`/`Int`; Python floats that are only ever compared (the Jaccard
similarity against the 0.45 threshold) are modelled as exact rationals.
Pure functions of strings supplied by the external `guessit` parser and
the regex-based title extractor are taken as inputs of the embedded
functions, so theorems quantify over every value those externals could
produce.
-/

/-! ### Embedding of `tmdb_utils.py` -/

/-- One episode of a TMDB show structure (`@dataclass TMDBEpisode`). -/
structure TMDBEpisode where
  season : Nat
  episode : Nat
  title : String
deriving DecidableEq

/-- Full season/episode layout for a single TMDB show
(`@dataclass ShowStructure`); `tmdb_id` plus the fetched episode list. -/
structure ShowStructure where
  tmdbId : Nat
  episodes : List TMDBEpisode
deriving DecidableEq

instance : IsTotal TMDBEpisode (fun a b => a.episode ≤ b.episode) :=
  ⟨fun a b => Nat.le_total a.episode b.episode⟩

instance : IsTrans TMDBEpisode (fun a b => a.episode ≤ b.episode) :=
  ⟨fun _ _ _ h h' => Nat.le_trans h h'⟩

/-- Property `ShowStructure.season_numbers`: `sorted({ep.season for ep in
self.episodes})`. -/
def ShowStructure.seasonNumbers (st : ShowStructure) : List Nat :=
  List.insertionSort (· ≤ ·) (st.episodes.map (·.season)).dedup

/-- Group used by `build_absolute_map`: the dict `seasons` maps a season
number to its episodes in appearance order. -/
def ShowStructure.seasonGroup (st : ShowStructure) (s : Nat) : List TMDBEpisode :=
  st.episodes.filter (fun e => e.season == s)

/-- The episode enumeration performed by `ShowStructure.build_absolute_map`:
seasons in ascending order, episodes of each season sorted ascending by
episode number. -/
def ShowStructure.absOrdered (st : ShowStructure) : List TMDBEpisode :=
  st.seasonNumbers.flatMap
    (fun s => List.insertionSort (fun a b => a.episode ≤ b.episode) (st.seasonGroup s))

/-- The `_abs_map` dict built by `ShowStructure.build_absolute_map`: 1-based
absolute episode number to `(season, episode)`. -/
def ShowStructure.absMap (st : ShowStructure) : List (Nat × (Nat × Nat)) :=
  (List.range' 1 st.absOrdered.length).zip
    (st.absOrdered.map (fun e => (e.season, e.episode)))

/-- Method `ShowStructure.lookup_absolute`: `self._abs_map.get(abs_ep)`. -/
def ShowStructure.lookupAbsolute (st : ShowStructure) (absEp : Nat) : Option (Nat × Nat) :=
  ((st.absMap).find? (fun p => p.1 == absEp)).map (·.2)

/-- Helper: a keyed flat-map of filters is a permutation of the original
list, provided the key list is duplicate-free and covers every element. -/
theorem flatMap_filter_season_perm :
    ∀ (keys : List Nat) (l : List TMDBEpisode), keys.Nodup →
      (∀ e ∈ l, e.season ∈ keys) →
      (keys.flatMap (fun s => l.filter (fun e => e.season == s))).Perm l := by
  intro keys
  induction keys with
  | nil =>
    intro l _ hcov
    cases l with
    | nil => simp
    | cons x xs => exact absurd (hcov x (by simp)) (by simp)
  | cons k ks ih =>
    intro l hnd hcov
    have hks : k ∉ ks := (List.nodup_cons.mp hnd).1
    have hnd' : ks.Nodup := (List.nodup_cons.mp hnd).2
    have hrw : ∀ s ∈ ks,
        l.filter (fun e => e.season == s)
          = (l.filter (fun e => !(e.season == k))).filter (fun e => e.season == s) := by
      intro s hs
      rw [List.filter_filter]
      apply List.filter_congr
      intro e _
      have hsk : s ≠ k := fun hsk => hks (hsk ▸ hs)
      by_cases h : e.season = s
      · simp [h, hsk]
      · simp [h]
    have hmain : (ks.flatMap (fun s => l.filter (fun e => e.season == s)))
        = ks.flatMap (fun s =>
            (l.filter (fun e => !(e.season == k))).filter (fun e => e.season == s)) := by
      apply List.flatMap_congr
      intro s hs
      exact hrw s hs
    have hcov' : ∀ e ∈ l.filter (fun e => !(e.season == k)), e.season ∈ ks := by
      intro e he
      rcases List.mem_filter.mp he with ⟨hel, hne⟩
      have := hcov e hel
      simp at hne
      simpa [hne] using this
    rw [List.flatMap_cons, hmain]
    exact (((ih _ hnd' hcov').append_left _).trans (List.filter_append_perm _ l))

/-- Helper: the abs-ordering enumeration is a permutation of the episode
list. -/
theorem absOrdered_perm (st : ShowStructure) : st.absOrdered.Perm st.episodes := by
  unfold ShowStructure.absOrdered
  have h1 : (st.seasonNumbers.flatMap
      (fun s => List.insertionSort (fun a b => a.episode ≤ b.episode) (st.seasonGroup s))).Perm
      (st.seasonNumbers.flatMap (fun s => st.seasonGroup s)) := by
    apply List.Perm.flatMap_left
    intro s _
    exact List.perm_insertionSort _ _
  have hnd : st.seasonNumbers.Nodup :=
    ((List.perm_insertionSort _ _).nodup_iff).mpr (List.nodup_dedup _)
  have hcov : ∀ e ∈ st.episodes, e.season ∈ st.seasonNumbers := by
    intro e he
    have : e.season ∈ (st.episodes.map (·.season)).dedup := by
      rw [List.mem_dedup]
      exact List.mem_map_of_mem _ he
    exact ((List.perm_insertionSort _ _).mem_iff).mpr this
  exact h1.trans (flatMap_filter_season_perm st.seasonNumbers st.episodes hnd hcov)

/-- Helper: every element of a season group has that season. -/
theorem mem_seasonGroup_season {st : ShowStructure} {s : Nat} {e : TMDBEpisode}
    (h : e ∈ st.seasonGroup s) : e.season = s := by
  have := (List.mem_filter.mp h).2
  simpa using this

/-- Lexicographic season-then-episode order on `(season, episode)` pairs. -/
def pairLexLe (p q : Nat × Nat) : Prop :=
  p.1 < q.1 ∨ (p.1 = q.1 ∧ p.2 ≤ q.2)

/-- Helper: the abs-ordering enumeration is pairwise sorted by season then
episode. -/
theorem absOrdered_sorted (st : ShowStructure) :
    (st.absOrdered.map (fun e => (e.season, e.episode))).Pairwise pairLexLe := by
  unfold ShowStructure.absOrdered
  have hsortedSeasons : st.seasonNumbers.Pairwise (· < ·) := by
    have hs : st.seasonNumbers.Pairwise (· ≤ ·) :=
      List.sorted_insertionSort (· ≤ ·) _
    have hnd : st.seasonNumbers.Nodup :=
      ((List.perm_insertionSort _ _).nodup_iff).mpr (List.nodup_dedup _)
    exact (hs.and hnd).imp (fun h => lt_of_le_of_ne h.1 h.2)
  generalize hK : st.seasonNumbers = K at hsortedSeasons
  clear hK
  induction K with
  | nil => simp
  | cons k ks ih =>
    rw [List.flatMap_cons, List.map_append, List.pairwise_append]
    refine ⟨?_, ?_, ?_⟩
    · -- within the first chunk: same season, episodes ascending
      rw [List.pairwise_map]
      have hsorted : (List.insertionSort (fun a b => a.episode ≤ b.episode)
          (st.seasonGroup k)).Pairwise (fun a b => a.episode ≤ b.episode) :=
        List.sorted_insertionSort _ _
      refine hsorted.imp_of_mem ?_
      intro a b ha hb hab
      have hsa : a.season = k := mem_seasonGroup_season
        ((List.perm_insertionSort _ _).mem_iff.mp ha)
      have hsb : b.season = k := mem_seasonGroup_season
        ((List.perm_insertionSort _ _).mem_iff.mp hb)
      exact Or.inr ⟨by rw [hsa, hsb], hab⟩
    · exact ih hsortedSeasons.of_cons
    · -- across chunks: season strictly increases
      intro p hp q hq
      rcases List.mem_map.mp hp with ⟨a, ha, rfl⟩
      rcases List.mem_map.mp hq with ⟨b, hbmem, rfl⟩
      rcases List.mem_flatMap.mp hbmem with ⟨s, hs, hb⟩
      have hsa : a.season = k := mem_seasonGroup_season
        ((List.perm_insertionSort _ _).mem_iff.mp ha)
      have hsb : b.season = s := mem_seasonGroup_season
        ((List.perm_insertionSort _ _).mem_iff.mp hb)
      have hks : k < s := (List.pairwise_cons.mp hsortedSeasons).1 s hs
      exact Or.inl (by rw [hsa, hsb]; exact hks)

/-- C7. For every `ShowStructure`, after `build_absolute_map` the
absolute-ordering map's key list is exactly `1, …, total_episodes` (the
count of episodes held by the structure, which excludes specials), and its
values enumerate the structure's `(season, episode)` pairs sorted by season
ascending and, within each season, by episode ascending. -/
theorem claim_C7_absolute_map_complete (st : ShowStructure) :
    (st.absMap.map Prod.fst = List.range' 1 st.episodes.length)
    ∧ (st.absMap.map Prod.snd).Pairwise pairLexLe
    ∧ (st.absMap.map Prod.snd).Perm (st.episodes.map (fun e => (e.season, e.episode))) := by
  have hlen : st.absOrdered.length = st.episodes.length :=
    (absOrdered_perm st).length_eq
  have hmapfst : st.absMap.map Prod.fst = List.range' 1 st.absOrdered.length := by
    unfold ShowStructure.absMap
    exact List.map_fst_zip _ _ (by simp)
  have hmapsnd : st.absMap.map Prod.snd = st.absOrdered.map (fun e => (e.season, e.episode)) := by
    unfold ShowStructure.absMap
    exact List.map_snd_zip _ _ (by simp)
  refine ⟨by rw [hmapfst, hlen], by rw [hmapsnd]; exact absOrdered_sorted st, ?_⟩
  rw [hmapsnd]
  exact (absOrdered_perm st).map _

/-! ### Matching strategies of `match_file_to_tmdb_episode` (tmdb_utils.py)

The external pure string pipelines (`guessit`, and
`_words(_extract_title_from_filename(...))`) are taken as inputs, so the
theorems below quantify over every value they could produce.  The Python
float threshold `0.45` is modelled as the exact rational `9/20`; the
claims settled here do not depend on the threshold's value. -/

/-- Python `str.lower()`, modelled character-wise (all strings compared
against it in this development are ASCII). -/
def pyLower (s : String) : String := String.mk (s.data.map Char.toLower)

/-- ASCII check used by the regex `[a-z0-9]+` of `_words`. -/
def pyAlnumLower (c : Char) : Bool :=
  ('a' ≤ c && c ≤ 'z') || ('0' ≤ c && c ≤ '9')

/-- Splitting a character list into maximal `[a-z0-9]+` runs (the token
list produced by `re.findall` in `_words`). -/
def splitRuns : List Char → List Char → List String
  | [], acc => if acc.isEmpty then [] else [String.mk acc.reverse]
  | c :: cs, acc =>
    if pyAlnumLower c then splitRuns cs (c :: acc)
    else if acc.isEmpty then splitRuns cs acc
    else String.mk acc.reverse :: splitRuns cs []

/-- Function `_words`: lowercase alphanumeric tokens of a text, as a set. -/
def pyWords (s : String) : Finset String :=
  (splitRuns (pyLower s).data []).toFinset

/-- Function `_jaccard`: Jaccard similarity of two word sets. -/
def jaccard (a b : Finset String) : ℚ :=
  if a = ∅ ∨ b = ∅ then 0 else ((a ∩ b).card : ℚ) / ((a ∪ b).card : ℚ)

/-- Constant `_TITLE_MATCH_THRESHOLD` (`0.45`, modelled exactly). -/
def titleMatchThreshold : ℚ := 9 / 20

/-- The best-scoring episode loop of the title-matching strategy. -/
def bestTitleMatch (titleWords : Finset String) (eps : List TMDBEpisode) :
    ℚ × Option TMDBEpisode :=
  eps.foldl
    (fun acc ep =>
      let epWords := pyWords ep.title
      if epWords = ∅ then acc
      else
        let score := jaccard titleWords epWords
        if acc.1 < score then (score, some ep) else acc)
    (0, none)

/-- Strategy 0 of `match_file_to_tmdb_episode`: guessit already has
season+episode and every episode exists in the structure for that
season. -/
def strategy0Verify (gSeason : Option Nat) (episodes : List Nat)
    (st : ShowStructure) : Option (List (Nat × Nat)) :=
  match gSeason with
  | some s =>
    if episodes ≠ []
        ∧ episodes.all (fun ep =>
            st.episodes.any (fun e => e.season == s && e.episode == ep))
    then some (episodes.map (fun ep => (s, ep)))
    else none
  | none => none

/-- The result accumulation of the absolute-numbering strategy: all episode
numbers must resolve through the absolute map, stopping at the first
miss. -/
def absResults (st : ShowStructure) : List Nat → Option (List (Nat × Nat))
  | [] => some []
  | e :: rest =>
    match st.lookupAbsolute e with
    | some p => (absResults st rest).map (fun l => p :: l)
    | none => none

/-- Strategy 1 of `match_file_to_tmdb_episode`: absolute numbering, guarded
by a non-empty episode list and at least two distinct seasons. -/
def strategy1Absolute (episodes : List Nat) (st : ShowStructure) :
    Option (List (Nat × Nat)) :=
  if episodes ≠ [] ∧ 1 < st.seasonNumbers.length then absResults st episodes
  else none

/-- Strategy 2 of `match_file_to_tmdb_episode`: fuzzy title matching with
the Jaccard threshold, requiring at least two query tokens. -/
def strategy2Title (titleWords : Finset String) (st : ShowStructure) :
    Option (List (Nat × Nat)) :=
  if titleWords ≠ ∅ ∧ 2 ≤ titleWords.card then
    match (bestTitleMatch titleWords st.episodes).2 with
    | some ep =>
      if titleMatchThreshold ≤ (bestTitleMatch titleWords st.episodes).1 then
        some [(ep.season, ep.episode)]
      else none
    | none => none
  else none

/-- The unique-episode-number loop of strategy 3: the first episode number
in the list matched by exactly one structure episode wins. -/
def strategy3Unique (st : ShowStructure) : List Nat → Option (List (Nat × Nat))
  | [] => none
  | ep :: rest =>
    match st.episodes.filter (fun e => e.episode == ep) with
    | [c] => some [(c.season, c.episode)]
    | _ => strategy3Unique st rest

/-- Strategy 3 of `match_file_to_tmdb_episode`, with its guard: only when
guessit produced no season and a non-empty episode list. -/
def strategy3UniqueGuarded (gSeason : Option Nat) (episodes : List Nat)
    (st : ShowStructure) : Option (List (Nat × Nat)) :=
  if gSeason = none ∧ episodes ≠ [] then strategy3Unique st episodes else none

/-- Function `match_file_to_tmdb_episode`: the four strategies in source
order, first hit wins. -/
def matchFileToTmdbEpisode (titleWords : Finset String) (gSeason : Option Nat)
    (episodes : List Nat) (st : ShowStructure) : Option (List (Nat × Nat)) :=
  (strategy0Verify gSeason episodes st).orElse (fun _ =>
    (strategy1Absolute episodes st).orElse (fun _ =>
      (strategy2Title titleWords st).orElse (fun _ =>
        strategy3UniqueGuarded gSeason episodes st)))

/-- Helper: a successful absolute-numbering accumulation means every episode
number resolved, and the result is the pointwise image of the lookup. -/
theorem absResults_some (st : ShowStructure) :
    ∀ (l : List Nat) (r : List (Nat × Nat)), absResults st l = some r →
      (∀ ep ∈ l, ∃ p, st.lookupAbsolute ep = some p)
      ∧ r = l.map (fun ep => (st.lookupAbsolute ep).getD (0, 0)) := by
  intro l
  induction l with
  | nil =>
    intro r hr
    simp [absResults] at hr
    simp [hr.symm]
  | cons e rest ih =>
    intro r hr
    unfold absResults at hr
    cases hp : st.lookupAbsolute e with
    | none => rw [hp] at hr; exact absurd hr (by simp)
    | some p =>
      rw [hp] at hr
      rcases Option.map_eq_some'.mp hr with ⟨r', hr', rfl⟩
      rcases ih r' hr' with ⟨hall, hmap⟩
      refine ⟨?_, ?_⟩
      · intro ep hep
        rcases List.mem_cons.mp hep with rfl | hmem
        · exact ⟨p, hp⟩
        · exact hall ep hmem
      · simp [hp, hmap]

/-- C8. `match_file_to_tmdb_episode` applies the absolute-numbering
strategy only when the episode list is non-empty, the structure has at
least 2 distinct seasons, and every episode number resolves via the
absolute-ordering map (in which case the strategy yields the mapped list);
when the episodes span at most one season the absolute strategy yields
nothing and the overall match is decided by the remaining strategies. -/
theorem claim_C8_absolute_strategy_guard
    (st : ShowStructure) (titleWords : Finset String) (gSeason : Option Nat)
    (episodes : List Nat) :
    (∀ r, strategy1Absolute episodes st = some r →
      episodes ≠ [] ∧ 1 < st.seasonNumbers.length
      ∧ (∀ ep ∈ episodes, ∃ p, st.lookupAbsolute ep = some p)
      ∧ r = episodes.map (fun ep => (st.lookupAbsolute ep).getD (0, 0)))
    ∧ (st.seasonNumbers.length ≤ 1 →
      strategy1Absolute episodes st = none
      ∧ matchFileToTmdbEpisode titleWords gSeason episodes st
          = (strategy0Verify gSeason episodes st).orElse (fun _ =>
              (strategy2Title titleWords st).orElse (fun _ =>
                strategy3UniqueGuarded gSeason episodes st))) := by
  constructor
  · intro r hr
    unfold strategy1Absolute at hr
    split at hr
    · next h =>
      rcases absResults_some st episodes r hr with ⟨hall, hmap⟩
      exact ⟨h.1, h.2, hall, hmap⟩
    · exact absurd hr (by simp)
  · intro hle
    have h1 : strategy1Absolute episodes st = none := by
      unfold strategy1Absolute
      rw [if_neg]
      intro hcon
      omega
    refine ⟨h1, ?_⟩
    unfold matchFileToTmdbEpisode
    rw [h1]
    rfl

/-- Concrete structures used by the witnesses below. -/
def stMulti : ShowStructure := ⟨100, [⟨1, 1, ""⟩, ⟨1, 2, ""⟩, ⟨2, 1, ""⟩]⟩

/-- Concrete single-season structure used by the witnesses below. -/
def stSingle : ShowStructure := ⟨101, [⟨1, 5, "a"⟩, ⟨1, 6, "b"⟩]⟩

/-- Witness for C8 at concrete inputs: on a 2-season structure the absolute
strategy fires and maps episode 3 to (2, 1); on a single-season structure
it yields nothing and the match is decided without it. -/
theorem claim_C8_witness :
    ([3] ≠ ([] : List Nat) ∧ 1 < stMulti.seasonNumbers.length
      ∧ (∀ ep ∈ [3], ∃ p, stMulti.lookupAbsolute ep = some p)
      ∧ [(2, 1)] = [3].map (fun ep => (stMulti.lookupAbsolute ep).getD (0, 0)))
    ∧ (strategy1Absolute [1] stSingle = none
      ∧ matchFileToTmdbEpisode ∅ (some 1) [1] stSingle
          = (strategy0Verify (some 1) [1] stSingle).orElse (fun _ =>
              (strategy2Title ∅ stSingle).orElse (fun _ =>
                strategy3UniqueGuarded (some 1) [1] stSingle))) :=
  ⟨(claim_C8_absolute_strategy_guard stMulti ∅ none [3]).1 [(2, 1)] (by decide),
   (claim_C8_absolute_strategy_guard stSingle ∅ (some 1) [1]).2 (by decide)⟩

/-- Helper: a successful unique-episode-number lookup always returns a
single pair. -/
theorem strategy3Unique_length (st : ShowStructure) :
    ∀ (l : List Nat) (r : List (Nat × Nat)),
      strategy3Unique st l = some r → r.length = 1 := by
  intro l
  induction l with
  | nil => intro r hr; simp [strategy3Unique] at hr
  | cons ep rest ih =>
    intro r hr
    unfold strategy3Unique at hr
    rcases hfilter : st.episodes.filter (fun e => e.episode == ep) with _ | ⟨c, cs⟩
    · rw [hfilter] at hr
      exact ih r hr
    · cases cs with
      | nil =>
        rw [hfilter] at hr
        simp at hr
        rw [← hr]
        rfl
      | cons c' cs' =>
        rw [hfilter] at hr
        exact ih r hr

/-- C10. For a multi-episode file (two or more parsed episode numbers)
with no season, not resolved by the verify, absolute, or title strategies,
`match_file_to_tmdb_episode` falls to the unique-episode-number loop, which
returns at most one `(season, episode)` pair — the unique structure match
of the first episode number with exactly one candidate — silently
discarding the remaining episode numbers. -/
theorem claim_C10_multiepisode_single_result
    (st : ShowStructure) (titleWords : Finset String)
    (e1 e2 : Nat) (rest : List Nat)
    (h1 : strategy1Absolute (e1 :: e2 :: rest) st = none)
    (h2 : strategy2Title titleWords st = none) :
    matchFileToTmdbEpisode titleWords none (e1 :: e2 :: rest) st
      = strategy3Unique st (e1 :: e2 :: rest)
    ∧ (∀ r, strategy3Unique st (e1 :: e2 :: rest) = some r → r.length = 1)
    ∧ (∀ c, st.episodes.filter (fun e => e.episode == e1) = [c] →
        strategy3Unique st (e1 :: e2 :: rest) = some [(c.season, c.episode)]) := by
  refine ⟨?_, fun r hr => strategy3Unique_length st _ r hr, ?_⟩
  · unfold matchFileToTmdbEpisode
    rw [h1, h2]
    show strategy3UniqueGuarded none (e1 :: e2 :: rest) st = _
    unfold strategy3UniqueGuarded
    rw [if_pos ⟨rfl, by simp⟩]
  · intro c hc
    unfold strategy3Unique
    rw [hc]

/-- Witness for C10 at a concrete input: a two-episode file `[5, 6]` on a
single-season structure yields only the match of episode 5. -/
theorem claim_C10_witness :
    matchFileToTmdbEpisode ∅ none [5, 6] stSingle = strategy3Unique stSingle [5, 6]
    ∧ strategy3Unique stSingle [5, 6] = some [(1, 5)] := by
  have h := claim_C10_multiepisode_single_result stSingle ∅ 5 6 []
    (by decide) (by decide)
  exact ⟨h.1, h.2.2 ⟨1, 5, "a"⟩ (by decide)⟩

/-! ### Video-extension sets (claim C9)

The repository holds four copies of the extension set:
`organiser.py` (used by the mount scanner `_scan_zurg_mount` and by Phase
D's `_get_video_files_for_torrent`), `constants.py` (used by the shared
helper `media_resolver.get_video_files`), `rd_api.py` (`_VIDEO_EXTS`, used
by `select_video_files`), and `resolve.py`. -/

/-- Set `VIDEO_EXTENSIONS` of `organiser.py` (lines 59-62). -/
def organiserVideoExtensions : List String :=
  [".mkv", ".mp4", ".avi", ".mov", ".wmv", ".flv", ".webm",
   ".m4v", ".mpg", ".mpeg", ".ts", ".vob", ".iso", ".m2ts"]

/-- Set `VIDEO_EXTENSIONS` of `constants.py` (lines 55-58) — no `.iso`. -/
def constantsVideoExtensions : List String :=
  [".mkv", ".mp4", ".avi", ".mov", ".wmv", ".flv", ".webm",
   ".m4v", ".mpg", ".mpeg", ".ts", ".vob", ".m2ts"]

/-- Set `_VIDEO_EXTS` of `rd_api.py` (lines 28-29). -/
def rdVideoExtensions : List String :=
  [".mkv", ".mp4", ".avi", ".mov", ".wmv", ".flv", ".webm",
   ".m4v", ".mpg", ".mpeg", ".ts", ".vob", ".m2ts", ".iso"]

/-- Set `VIDEO_EXTENSIONS` of `resolve.py` (lines 34-37). -/
def resolveVideoExtensions : List String :=
  [".mkv", ".mp4", ".avi", ".mov", ".wmv", ".flv", ".webm",
   ".m4v", ".mpg", ".mpeg", ".ts", ".vob", ".iso", ".m2ts"]

/-- The extension set named by the claim and the spec (14 entries,
`.iso` included). -/
def claimedVideoExtensions : List String :=
  [".mkv", ".mp4", ".avi", ".mov", ".wmv", ".flv", ".webm",
   ".m4v", ".mpg", ".mpeg", ".ts", ".vob", ".m2ts", ".iso"]

/-- The mount scanner's membership test (`item.suffix.lower() in
VIDEO_EXTENSIONS` in `_scan_zurg_mount`, against the `organiser.py`
set). -/
def scannerIsVideoSuffix (sfx : String) : Bool :=
  organiserVideoExtensions.contains (pyLower sfx)

/-- The shared helper's membership test (`path.suffix.lower() in
VIDEO_EXTENSIONS` in `media_resolver.get_video_files`, against the
`constants.py` set). -/
def mediaResolverIsVideoSuffix (sfx : String) : Bool :=
  constantsVideoExtensions.contains (pyLower sfx)

/-- Counterexample for C9 as stated: the claim demands that the mount
scanner and the shared video-file helper recognise exactly the same
14-extension set including `.iso`, but `media_resolver.get_video_files`
tests against `constants.VIDEO_EXTENSIONS`, which lacks `.iso`. -/
theorem claim_C9_counterexample :
    ".iso" ∈ claimedVideoExtensions
    ∧ scannerIsVideoSuffix ".iso" = true
    ∧ mediaResolverIsVideoSuffix ".iso" = false := by
  decide

/-- C9 (amended). The mount scanner of `organiser.py`, the Real-Debrid
file selector set, and `resolve.py` all use exactly the claimed
14-extension set (so a loose `.iso` file is treated as a video mount entry
and collected when walking a torrent folder, case-insensitively), but the
shared helper `media_resolver.get_video_files` uses the `constants.py`
set, which is the claimed set without `.iso`. -/
theorem claim_C9_extension_sets :
    organiserVideoExtensions.toFinset = claimedVideoExtensions.toFinset
    ∧ rdVideoExtensions.toFinset = claimedVideoExtensions.toFinset
    ∧ resolveVideoExtensions.toFinset = claimedVideoExtensions.toFinset
    ∧ constantsVideoExtensions.toFinset
        = claimedVideoExtensions.toFinset.erase ".iso"
    ∧ scannerIsVideoSuffix ".iso" = true
    ∧ scannerIsVideoSuffix ".ISO" = true
    ∧ mediaResolverIsVideoSuffix ".iso" = false := by
  decide

/-! ### Embedding of `rd_api.py` `RealDebridClient._request` (claim C6)

The loop `for attempt in range(max_retries + 1)` with `max_retries = 3`
and `backoff = 2.0` is modelled over an abstract stream of per-attempt
network events.  A `resp status validJson` event is an HTTP response with
that status whose body parses iff `validJson`; `transportErr` is any
`requests.exceptions.RequestException` raised by the transport itself.
Note that in the source a non-2xx status outside the 429/503 fast path is
surfaced by `resp.raise_for_status()` as `requests.HTTPError`, and a
malformed body by `resp.json()` as `requests.JSONDecodeError`; both are
subclasses of `RequestException` and are therefore caught by the retry
handler. -/

/-- One network event observed by an attempt of `_request`. -/
inductive RdEvent where
  | transportErr : RdEvent
  | resp : Nat → Bool → RdEvent
deriving DecidableEq

/-- Outcome of `_request`: a parsed-body return at some attempt, or the
typed `RealDebridError`. -/
inductive RdOutcome where
  | ok : Nat → RdOutcome
  | err : RdOutcome
deriving DecidableEq

/-- The wait before retry `n`: `backoff * (2 ** attempt)` seconds. -/
def retryWait (attempt : Nat) : Nat := 2 * 2 ^ attempt

/-- The decision one attempt of `_request` makes on its network event:
return a parsed body, sleep-and-retry (the `retryResult` continuation), or
raise the typed error on the final attempt. -/
def rdHandle (ev : RdEvent) (attempt : Nat) (waits : List Nat)
    (retryResult : RdOutcome × List Nat) : RdOutcome × List Nat :=
  match ev with
  | .transportErr =>
    if attempt < 3 then retryResult else (.err, waits)
  | .resp status validJson =>
    if (status = 429 ∨ status = 503) ∧ attempt < 3 then retryResult
    else if status = 204 then (.ok attempt, waits)
    else if status = 201 then
      if validJson then (.ok attempt, waits)
      else if attempt < 3 then retryResult
      else (.err, waits)
    else if 400 ≤ status then
      if attempt < 3 then retryResult else (.err, waits)
    else
      if validJson then (.ok attempt, waits)
      else if attempt < 3 then retryResult
      else (.err, waits)

/-- The retry loop of `_request`, starting at a given attempt index with
`fuel` iterations left (`fuel = 4` at entry, matching
`range(max_retries + 1)`); returns the outcome and the waits slept. -/
def rdLoop (events : Nat → RdEvent) : Nat → Nat → List Nat → RdOutcome × List Nat
  | _, 0, waits => (.err, waits)
  | attempt, fuel + 1, waits =>
    rdHandle (events attempt) attempt waits
      (rdLoop events (attempt + 1) fuel (waits ++ [retryWait attempt]))

/-- Method `RealDebridClient._request` over an event stream. -/
def rdRequest (events : Nat → RdEvent) : RdOutcome × List Nat :=
  rdLoop events 0 4 []

/-- An event on which an attempt of `_request` does not return: a transport
error, a 429/503, any other error status, or an unparsable body. -/
def rdEventFails : RdEvent → Bool
  | .transportErr => true
  | .resp status validJson =>
    if status = 429 ∨ status = 503 then true
    else if status = 204 then false
    else if status = 201 then !validJson
    else if 400 ≤ status then true
    else !validJson

/-- Counterexample for C6 as stated: a request that receives HTTP 404 on
every attempt — a 4xx other than 429, which the claim says raises the
typed error without any retry — is in fact retried three times, sleeping
2, 4 and 8 seconds, before the typed error is raised. -/
theorem claim_C6_counterexample :
    rdRequest (fun _ => RdEvent.resp 404 true) = (RdOutcome.err, [2, 4, 8])
    ∧ ([2, 4, 8] : List Nat) ≠ [] := by
  constructor
  · rfl
  · simp

/-- Helper: an attempt below the retry limit either retries on a failing
event or returns. -/
theorem rdHandle_eq (ev : RdEvent) (attempt : Nat) (waits : List Nat)
    (r : RdOutcome × List Nat) (hlt : attempt < 3) :
    rdHandle ev attempt waits r
      = if rdEventFails ev then r else (.ok attempt, waits) := by
  unfold rdHandle rdEventFails
  cases ev with
  | transportErr => simp [hlt]
  | resp status validJson =>
    by_cases h429 : status = 429 ∨ status = 503
    · simp [h429, hlt]
    · by_cases h204 : status = 204
      · simp [h429, h204]
      · by_cases h201 : status = 201
        · cases validJson <;> simp [h429, h204, h201, hlt]
        · by_cases h400 : 400 ≤ status
          · simp [h429, h204, h201, h400, hlt]
          · cases validJson <;> simp [h429, h204, h201, h400, hlt]

/-- Helper: the final attempt either returns or raises the typed error. -/
theorem rdHandle_last (ev : RdEvent) (waits : List Nat)
    (r : RdOutcome × List Nat) :
    rdHandle ev 3 waits r
      = if rdEventFails ev then (.err, waits) else (.ok 3, waits) := by
  unfold rdHandle rdEventFails
  cases ev with
  | transportErr => simp
  | resp status validJson =>
    by_cases h429 : status = 429 ∨ status = 503
    · have h400 : 400 ≤ status := by rcases h429 with h | h <;> omega
      have h204 : ¬ status = 204 := by rcases h429 with h | h <;> omega
      have h201 : ¬ status = 201 := by rcases h429 with h | h <;> omega
      simp [h429, h204, h201, h400]
    · by_cases h204 : status = 204
      · simp [h429, h204]
      · by_cases h201 : status = 201
        · cases validJson <;> simp [h429, h204, h201]
        · by_cases h400 : 400 ≤ status
          · simp [h429, h204, h201, h400]
          · cases validJson <;> simp [h429, h204, h201, h400]

/-- C6 (amended). `_request` retries, waiting `2·2^n` seconds for at most 3
retries, on status 429/503 and on transport errors — and equally on every
other failing event (any other 4xx/5xx status, surfaced by
`raise_for_status` as an exception the retry handler catches, and any
unparsable body): the call returns at the first non-failing attempt, and
raises the typed `RealDebridError` only after all 4 attempts fail, having
slept 2, 4 and 8 seconds.  In particular a 4xx other than 429 is *not*
raised without retry. -/
theorem claim_C6_retry_characterisation (events : Nat → RdEvent) :
    rdRequest events
      = match (List.range 4).find? (fun i => !(rdEventFails (events i))) with
        | some i => (RdOutcome.ok i, (List.range i).map retryWait)
        | none => (RdOutcome.err, (List.range 3).map retryWait) := by
  have hrange : List.range 4 = [0, 1, 2, 3] := by decide
  rw [hrange]
  unfold rdRequest
  have e0 : rdLoop events 0 4 []
      = rdHandle (events 0) 0 [] (rdLoop events 1 3 ([] ++ [retryWait 0])) := rfl
  have e1 : ∀ w, rdLoop events 1 3 w
      = rdHandle (events 1) 1 w (rdLoop events 2 2 (w ++ [retryWait 1])) := fun _ => rfl
  have e2 : ∀ w, rdLoop events 2 2 w
      = rdHandle (events 2) 2 w (rdLoop events 3 1 (w ++ [retryWait 2])) := fun _ => rfl
  have e3 : ∀ w, rdLoop events 3 1 w
      = rdHandle (events 3) 3 w (rdLoop events 4 0 (w ++ [retryWait 3])) := fun _ => rfl
  rw [e0, rdHandle_eq _ _ _ _ (by omega)]
  by_cases h0 : rdEventFails (events 0)
  · rw [if_pos h0, e1, rdHandle_eq _ _ _ _ (by omega)]
    by_cases h1 : rdEventFails (events 1)
    · rw [if_pos h1, e2, rdHandle_eq _ _ _ _ (by omega)]
      by_cases h2 : rdEventFails (events 2)
      · rw [if_pos h2, e3, rdHandle_last]
        by_cases h3 : rdEventFails (events 3)
        · rw [if_pos h3]
          simp [h0, h1, h2, h3, List.find?, List.range_succ, retryWait]
        · rw [if_neg h3]
          simp [h0, h1, h2, h3, List.find?, List.range_succ, retryWait]
      · rw [if_neg h2]
        simp [h0, h1, h2, List.find?, List.range_succ, retryWait]
    · rw [if_neg h1]
      simp [h0, h1, List.find?, List.range_succ, retryWait]
  · rw [if_neg h0]
    simp [h0, List.find?]

/-! ### PocketBase store model (claims C2, C4, C5)

The record store is modelled as in-memory lists of typed records; every
operation of the PocketBase clients used by `media_resolver.py` and
`organiser.py` becomes a pure store transformation.  An empty string in a
`torrent` relation field is PocketBase's empty-relation sentinel (Python
falsiness of `""`).  Record ids are assigned from a counter on creation;
the `expand` of a read is the related record at the time of the read,
modelled by reading the store directly (no write intervenes between the
read and its use in the source). -/

/-- A row of the `torrents` collection (schema of `pb_client.py`:
`create_torrent` also initialises `hash` and `repair_attempts`). -/
structure TorrentRec where
  id : String
  name : String
  path : String
  score : Int
  archived : Bool
  manual : Bool
  hash : String
  repairAttempts : Nat
deriving DecidableEq

/-- A row of the `films` collection. -/
structure FilmRec where
  id : String
  torrent : String
  tmdbId : Nat
  title : String
  year : Nat
deriving DecidableEq

/-- A row of the `shows` collection (one per episode). -/
structure ShowRec where
  id : String
  torrent : String
  tmdbId : Nat
  title : String
  year : Nat
  season : Nat
  episode : Nat
deriving DecidableEq

/-- The whole record store plus the id-assignment counter. -/
structure Store where
  torrents : List TorrentRec
  films : List FilmRec
  shows : List ShowRec
  nextId : Nat
deriving DecidableEq

/-- Store-assigned id of the next created record. -/
def freshId (n : Nat) : String := "pb" ++ toString n

/-- Operation `get_torrent_by_id`. -/
def getTorrentById (s : Store) (rid : String) : Option TorrentRec :=
  s.torrents.find? (fun t => t.id == rid)

/-- Operation `update_torrent(id, archived=True)`. -/
def updateTorrentArchived (s : Store) (rid : String) : Store :=
  { s with torrents := (s.torrents.map
      (fun t => if t.id == rid then { t with archived := true } else t)) }

/-- Operation `delete_torrent`. -/
def deleteTorrent (s : Store) (rid : String) : Store :=
  { s with torrents := s.torrents.filter (fun t => !(t.id == rid)) }

/-- Operation `get_film_by_tmdb` (`perPage = 1`: first match). -/
def getFilmByTmdb (s : Store) (tmdb : Nat) : Option FilmRec :=
  s.films.find? (fun f => f.tmdbId == tmdb)

/-- Operation `create_film` (`year or 0` stored). -/
def createFilm (s : Store) (torrentId : String) (tmdb : Nat) (title : String)
    (year : Option Nat) : Store :=
  { s with
    films := s.films ++ [⟨freshId s.nextId, torrentId, tmdb, title, year.getD 0⟩],
    nextId := s.nextId + 1 }

/-- Operation `update_film(id, torrent=...)`. -/
def updateFilmTorrent (s : Store) (rid : String) (tid : String) : Store :=
  { s with films := (s.films.map
      (fun f => if f.id == rid then { f with torrent := tid } else f)) }

/-- Operation `list_films_by_torrent`. -/
def listFilmsByTorrent (s : Store) (tid : String) : List FilmRec :=
  s.films.filter (fun f => f.torrent == tid)

/-- Operation `get_show_episode` (`perPage = 1`: first match on the
triple). -/
def getShowEpisode (s : Store) (tmdb : Nat) (season episode : Nat) : Option ShowRec :=
  s.shows.find?
    (fun r => r.tmdbId == tmdb && r.season == season && r.episode == episode)

/-- Operation `create_show` (`year or 0` stored). -/
def createShow (s : Store) (torrentId : String) (tmdb : Nat) (title : String)
    (year : Option Nat) (season episode : Nat) : Store :=
  { s with
    shows := s.shows
      ++ [⟨freshId s.nextId, torrentId, tmdb, title, year.getD 0, season, episode⟩],
    nextId := s.nextId + 1 }

/-- Operation `update_show(id, torrent=...)`. -/
def updateShowTorrent (s : Store) (rid : String) (tid : String) : Store :=
  { s with shows := (s.shows.map
      (fun r => if r.id == rid then { r with torrent := tid } else r)) }

/-- Operation `list_shows_by_torrent`. -/
def listShowsByTorrent (s : Store) (tid : String) : List ShowRec :=
  s.shows.filter (fun r => r.torrent == tid)

/-- Result alias `ResolveResult` of `media_resolver.py`. -/
inductive ResolveResult where
  | created | won | lost | relinked
deriving DecidableEq

/-- The score read of a duplicate contest: `existing_torrent.get("score",
0) if existing_torrent else 0` (via `expand` or `get_torrent_by_id`). -/
def torrentScoreOf (s : Store) (tid : String) : Int :=
  match getTorrentById s tid with
  | some t => t.score
  | none => 0

/-- Function `media_resolver.resolve_film_duplicate`. -/
def resolveFilmDuplicate (s : Store) (torrentId : String) (torrentScore : Int)
    (tmdbId : Nat) (title : String) (year : Option Nat) :
    ResolveResult × Store :=
  match getFilmByTmdb s tmdbId with
  | none => (.created, createFilm s torrentId tmdbId title year)
  | some existing =>
    if existing.torrent = "" then
      (.relinked, updateFilmTorrent s existing.id torrentId)
    else
      if torrentScore > torrentScoreOf s existing.torrent then
        (.won, updateTorrentArchived (updateFilmTorrent s existing.id torrentId)
                existing.torrent)
      else
        (.lost, updateTorrentArchived s torrentId)

/-- Function `media_resolver.maybe_archive_orphan` (identical to
`organiser._maybe_archive_torrent`): archive a torrent that no longer
provides any films or episodes. -/
def maybeArchiveOrphan (s : Store) (torrentId : String) : Store :=
  if listFilmsByTorrent s torrentId ≠ [] then s
  else if listShowsByTorrent s torrentId ≠ [] then s
  else updateTorrentArchived s torrentId

/-- Function `media_resolver.resolve_episode_duplicate`. -/
def resolveEpisodeDuplicate (s : Store) (torrentId : String) (torrentScore : Int)
    (tmdbId : Nat) (title : String) (year : Option Nat) (season episode : Nat) :
    ResolveResult × Store :=
  match getShowEpisode s tmdbId season episode with
  | none => (.created, createShow s torrentId tmdbId title year season episode)
  | some existing =>
    if existing.torrent = "" then
      (.relinked, updateShowTorrent s existing.id torrentId)
    else
      if torrentScore > torrentScoreOf s existing.torrent then
        (.won, maybeArchiveOrphan (updateShowTorrent s existing.id torrentId)
                existing.torrent)
      else
        (.lost, s)

/-- Helper: mapping a function that fixes every element is the identity. -/
theorem list_map_eq_self {α : Type} {l : List α} {f : α → α}
    (h : ∀ a ∈ l, f a = a) : l.map f = l :=
  (List.map_congr_left h).trans (List.map_id l)

/-- Helper: `find?` commutes with a map that preserves the predicate. -/
theorem find?_map_pred {α : Type} (f : α → α) (p : α → Bool) (l : List α)
    (h : ∀ a, p (f a) = p a) : (l.map f).find? p = (l.find? p).map f := by
  induction l with
  | nil => rfl
  | cons a l ih =>
    by_cases hpa : p a = true
    · rw [List.map_cons, List.find?_cons_of_pos _ (by rw [h]; exact hpa),
        List.find?_cons_of_pos _ hpa]
      rfl
    · rw [List.map_cons, List.find?_cons_of_neg _ (by rw [h]; simpa using hpa),
        List.find?_cons_of_neg _ (by simpa using hpa)]
      exact ih

/-- Helper: the episode-row map of `update_show` preserves the lookup
triple, so a lookup after the update returns the updated row. -/
theorem getShowEpisode_updateShowTorrent (s : Store) (rid tid : String)
    (tmdb season episode : Nat) :
    getShowEpisode (updateShowTorrent s rid tid) tmdb season episode
      = (getShowEpisode s tmdb season episode).map
          (fun r => if r.id == rid then { r with torrent := tid } else r) := by
  unfold getShowEpisode updateShowTorrent
  exact find?_map_pred _ _ _ (fun r => by by_cases h : r.id == rid <;> simp [h])

/-- Helper: `update_show` with a fixed id and value is idempotent. -/
theorem updateShowTorrent_comp (s : Store) (rid tid : String) :
    updateShowTorrent (updateShowTorrent s rid tid) rid tid
      = updateShowTorrent s rid tid := by
  unfold updateShowTorrent
  congr 1
  rw [List.map_map]
  apply List.map_congr_left
  intro r _
  by_cases h : r.id == rid <;> simp [Function.comp, h]

/-- Helper: `update_show` is the identity when every targeted row already
holds the value. -/
theorem updateShowTorrent_noop (s : Store) (rid tid : String)
    (h : ∀ r ∈ s.shows, r.id = rid → r.torrent = tid) :
    updateShowTorrent s rid tid = s := by
  unfold updateShowTorrent
  have hmap : (s.shows.map
      (fun r => if r.id == rid then { r with torrent := tid } else r)) = s.shows := by
    apply list_map_eq_self
    intro r hr
    by_cases hid : r.id == rid
    · have htor : r.torrent = tid := h r hr (by simpa using hid)
      cases r
      simp_all
    · simp [hid]
  rw [hmap]

/-- Helper: archiving decisions do not change the `shows` collection. -/
theorem maybeArchiveOrphan_shows (s : Store) (tid : String) :
    (maybeArchiveOrphan s tid).shows = s.shows := by
  unfold maybeArchiveOrphan
  split
  · rfl
  · split <;> rfl

/-- Helper: archiving decisions do not change the `films` collection. -/
theorem maybeArchiveOrphan_films (s : Store) (tid : String) :
    (maybeArchiveOrphan s tid).films = s.films := by
  unfold maybeArchiveOrphan
  split
  · rfl
  · split <;> rfl

/-- Helper: `maybe_archive_orphan` leaves the store alone whenever the
torrent still provides some episode. -/
theorem maybeArchiveOrphan_of_show_mem (s : Store) (tid : String)
    (h : listShowsByTorrent s tid ≠ []) :
    maybeArchiveOrphan s tid = s := by
  unfold maybeArchiveOrphan
  split
  · rfl
  · simp [h]

/-- Store used by the C4 counterexample: one torrent, no film rows yet. -/
def resolveFilmTwiceInput : Store :=
  ⟨[⟨"t1", "T", "/zurg/T", 100, false, false, "", 0⟩], [], [], 0⟩

/-- Counterexample for C4 as stated: `resolve_film_duplicate` is not
idempotent.  The first call creates the film row linked to torrent `t1`;
the identical second call finds that row linked to `t1` itself, loses the
score comparison (`100 > 100` is false), and archives `t1` — changing the
store again. -/
theorem claim_C4_counterexample :
    (resolveFilmDuplicate
        (resolveFilmDuplicate resolveFilmTwiceInput "t1" 100 42 "Arrival" (some 2016)).2
        "t1" 100 42 "Arrival" (some 2016)).2
      ≠ (resolveFilmDuplicate resolveFilmTwiceInput "t1" 100 42 "Arrival" (some 2016)).2 := by
  decide

/-- C4 (amended). `resolve_episode_duplicate` is idempotent: for every
store in which the id about to be assigned to a created row is fresh,
applying the identical call twice leaves the store exactly as after the
first application.  (`resolve_film_duplicate` lacks this property — see
the counterexample above — because its losing branch archives the calling
torrent.) -/
theorem claim_C4_episode_resolver_idempotent
    (s : Store) (torrentId : String) (torrentScore : Int) (tmdbId : Nat)
    (title : String) (year : Option Nat) (season episode : Nat)
    (hfresh : freshId s.nextId ∉ s.shows.map (fun r => r.id)) :
    (resolveEpisodeDuplicate
        (resolveEpisodeDuplicate s torrentId torrentScore tmdbId title year season episode).2
        torrentId torrentScore tmdbId title year season episode).2
      = (resolveEpisodeDuplicate s torrentId torrentScore tmdbId title year season episode).2 := by
  cases hget : getShowEpisode s tmdbId season episode with
  | none =>
    have h1 : resolveEpisodeDuplicate s torrentId torrentScore tmdbId title year season episode
        = (.created, createShow s torrentId tmdbId title year season episode) := by
      unfold resolveEpisodeDuplicate
      rw [hget]
    rw [h1]
    have hget1 : getShowEpisode (createShow s torrentId tmdbId title year season episode)
        tmdbId season episode
        = some ⟨freshId s.nextId, torrentId, tmdbId, title, year.getD 0, season, episode⟩ := by
      unfold getShowEpisode at hget ⊢
      show ((s.shows ++ [_]).find? _) = _
      rw [List.find?_append, hget]
      simp
    have hid : ∀ r ∈ (createShow s torrentId tmdbId title year season episode).shows,
        r.id = freshId s.nextId → r.torrent = torrentId := by
      intro r hr hrid
      rcases List.mem_append.mp hr with hmem | hmem
      · exact absurd (hrid ▸ List.mem_map_of_mem (fun x => x.id) hmem) hfresh
      · rw [List.mem_singleton] at hmem
        rw [hmem]
    by_cases htid : torrentId = ""
    · unfold resolveEpisodeDuplicate
      simp only [hget1]
      rw [if_pos (show torrentId = "" from htid)]
      exact updateShowTorrent_noop _ _ _ hid
    · unfold resolveEpisodeDuplicate
      simp only [hget1]
      rw [if_neg (show ¬ torrentId = "" from htid)]
      by_cases hsc : torrentScore > torrentScoreOf
          (createShow s torrentId tmdbId title year season episode) torrentId
      · rw [if_pos hsc]
        show maybeArchiveOrphan (updateShowTorrent _ _ _) _ = _
        rw [updateShowTorrent_noop _ _ _ hid]
        apply maybeArchiveOrphan_of_show_mem
        apply List.ne_nil_of_mem (a :=
          ⟨freshId s.nextId, torrentId, tmdbId, title, year.getD 0, season, episode⟩)
        apply List.mem_filter.mpr
        constructor
        · exact List.mem_append.mpr (Or.inr (List.mem_singleton.mpr rfl))
        · simp
      · rw [if_neg hsc]
  | some ex =>
    have hmem_ex : ex ∈ s.shows := List.mem_of_find?_eq_some hget
    by_cases hext : ex.torrent = ""
    · -- first call re-links the orphaned row
      have h1 : resolveEpisodeDuplicate s torrentId torrentScore tmdbId title year season episode
          = (.relinked, updateShowTorrent s ex.id torrentId) := by
        unfold resolveEpisodeDuplicate
        rw [hget]
        dsimp only
        rw [if_pos hext]
      rw [h1]
      have hget1 : getShowEpisode (updateShowTorrent s ex.id torrentId) tmdbId season episode
          = some { ex with torrent := torrentId } := by
        rw [getShowEpisode_updateShowTorrent, hget]
        simp
      have hnoop : updateShowTorrent (updateShowTorrent s ex.id torrentId) ex.id torrentId
          = updateShowTorrent s ex.id torrentId := updateShowTorrent_comp s ex.id torrentId
      have hmemshow : listShowsByTorrent (updateShowTorrent s ex.id torrentId) torrentId ≠ [] := by
        apply List.ne_nil_of_mem (a := { ex with torrent := torrentId })
        apply List.mem_filter.mpr
        refine ⟨?_, by simp⟩
        have : ({ ex with torrent := torrentId } : ShowRec)
            = (fun r => if r.id == ex.id then { r with torrent := torrentId } else r) ex := by
          simp
        rw [this]
        exact List.mem_map_of_mem _ hmem_ex
      by_cases htid : torrentId = ""
      · unfold resolveEpisodeDuplicate
        simp only [hget1]
        rw [if_pos (show torrentId = "" from htid)]
        exact hnoop
      · unfold resolveEpisodeDuplicate
        simp only [hget1]
        rw [if_neg (show ¬ torrentId = "" from htid)]
        by_cases hsc : torrentScore > torrentScoreOf (updateShowTorrent s ex.id torrentId) torrentId
        · rw [if_pos hsc]
          show maybeArchiveOrphan _ _ = _
          rw [hnoop]
          exact maybeArchiveOrphan_of_show_mem _ _ hmemshow
        · rw [if_neg hsc]
    · by_cases hsc : torrentScore > torrentScoreOf s ex.torrent
      · -- first call wins and may archive the displaced torrent
        have h1 : resolveEpisodeDuplicate s torrentId torrentScore tmdbId title year season episode
            = (.won, maybeArchiveOrphan (updateShowTorrent s ex.id torrentId) ex.torrent) := by
          unfold resolveEpisodeDuplicate
          rw [hget]
          dsimp only
          rw [if_neg hext, if_pos hsc]
        rw [h1]
        have hshows_s1 : (maybeArchiveOrphan (updateShowTorrent s ex.id torrentId) ex.torrent).shows
            = (updateShowTorrent s ex.id torrentId).shows :=
          maybeArchiveOrphan_shows _ _
        have hget1 : getShowEpisode
            (maybeArchiveOrphan (updateShowTorrent s ex.id torrentId) ex.torrent)
            tmdbId season episode = some { ex with torrent := torrentId } := by
          have hu : getShowEpisode (updateShowTorrent s ex.id torrentId) tmdbId season episode
              = some { ex with torrent := torrentId } := by
            rw [getShowEpisode_updateShowTorrent, hget]
            simp
          unfold getShowEpisode at hu ⊢
          rw [hshows_s1]
          exact hu
        have hnoop : updateShowTorrent
            (maybeArchiveOrphan (updateShowTorrent s ex.id torrentId) ex.torrent) ex.id torrentId
            = maybeArchiveOrphan (updateShowTorrent s ex.id torrentId) ex.torrent := by
          apply updateShowTorrent_noop
          intro r hr hrid
          rw [hshows_s1] at hr
          rcases List.mem_map.mp hr with ⟨r0, _, rfl⟩
          by_cases h0 : r0.id == ex.id
          · simp [h0]
          · rw [show (if r0.id == ex.id then { r0 with torrent := torrentId } else r0) = r0
              from by simp [h0]] at hrid ⊢
            exact absurd (by simpa using hrid) (by simpa using h0)
        have hmemshow : listShowsByTorrent
            (maybeArchiveOrphan (updateShowTorrent s ex.id torrentId) ex.torrent) torrentId
            ≠ [] := by
          apply List.ne_nil_of_mem (a := { ex with torrent := torrentId })
          apply List.mem_filter.mpr
          refine ⟨?_, by simp⟩
          rw [show (maybeArchiveOrphan (updateShowTorrent s ex.id torrentId) ex.torrent).shows
            = (updateShowTorrent s ex.id torrentId).shows from hshows_s1]
          have : ({ ex with torrent := torrentId } : ShowRec)
              = (fun r => if r.id == ex.id then { r with torrent := torrentId } else r) ex := by
            simp
          rw [this]
          exact List.mem_map_of_mem _ hmem_ex
        by_cases htid : torrentId = ""
        · unfold resolveEpisodeDuplicate
          simp only [hget1]
          rw [if_pos (show torrentId = "" from htid)]
          exact hnoop
        · unfold resolveEpisodeDuplicate
          simp only [hget1]
          rw [if_neg (show ¬ torrentId = "" from htid)]
          by_cases hsc' : torrentScore > torrentScoreOf
              (maybeArchiveOrphan (updateShowTorrent s ex.id torrentId) ex.torrent) torrentId
          · rw [if_pos hsc']
            show maybeArchiveOrphan _ _ = _
            rw [hnoop]
            exact maybeArchiveOrphan_of_show_mem _ _ hmemshow
          · rw [if_neg hsc']
      · -- first call loses: the store is untouched, so the second call
        -- repeats the identical losing computation
        have h1 : resolveEpisodeDuplicate s torrentId torrentScore tmdbId title year season episode
            = (.lost, s) := by
          unfold resolveEpisodeDuplicate
          rw [hget]
          dsimp only
          rw [if_neg hext, if_neg hsc]
        rw [h1]
        show (resolveEpisodeDuplicate s torrentId torrentScore tmdbId title year season episode).2 = s
        rw [h1]

/-- Witness for C4 at a concrete input: double application of the episode
resolver on a store where the contest is freshly created. -/
theorem claim_C4_witness :
    freshId resolveFilmTwiceInput.nextId
      ∉ resolveFilmTwiceInput.shows.map (fun r => r.id)
    ∧ (resolveEpisodeDuplicate
        (resolveEpisodeDuplicate resolveFilmTwiceInput "t1" 100 42 "T" (some 2016) 1 2).2
        "t1" 100 42 "T" (some 2016) 1 2).2
      = (resolveEpisodeDuplicate resolveFilmTwiceInput "t1" 100 42 "T" (some 2016) 1 2).2 :=
  ⟨by decide,
   claim_C4_episode_resolver_idempotent resolveFilmTwiceInput "t1" 100 42 "T"
     (some 2016) 1 2 (by decide)⟩

/-! ### The per-episode contest loop of `organiser._identify_show`
(claim C5)

The loop body (organiser.py lines 1029-1068) is embedded over the
flattened list of `(season, episode)` pairs the `guessit` parses produce;
`all_episodes_lost` and `any_episode_found` are recovered from the list of
contest outcomes, exactly as the flags are maintained in the source. -/

/-- The contest loop of `_identify_show`: one `ResolveResult` per
`(season, episode)` pair, threading the store. -/
def contestLoop (torrentId : String) (torrentScore : Int) (tmdbId : Nat)
    (title : String) (year : Option Nat) :
    List (Nat × Nat) → Store → List ResolveResult × Store
  | [], s => ([], s)
  | (season, ep) :: rest, s =>
    match getShowEpisode s tmdbId season ep with
    | some existing =>
      if existing.torrent = "" then
        let next := contestLoop torrentId torrentScore tmdbId title year rest
          (updateShowTorrent s existing.id torrentId)
        (.relinked :: next.1, next.2)
      else
        if torrentScore > torrentScoreOf s existing.torrent then
          let next := contestLoop torrentId torrentScore tmdbId title year rest
            (maybeArchiveOrphan (updateShowTorrent s existing.id torrentId)
              existing.torrent)
          (.won :: next.1, next.2)
        else
          let next := contestLoop torrentId torrentScore tmdbId title year rest s
          (.lost :: next.1, next.2)
    | none =>
      let next := contestLoop torrentId torrentScore tmdbId title year rest
        (createShow s torrentId tmdbId title year season ep)
      (.created :: next.1, next.2)

/-- The contest section of `_identify_show`: run every contest, then
archive the new torrent iff some episode was found and every contest was
lost. -/
def identifyShowContests (s : Store) (torrentId : String) (torrentScore : Int)
    (tmdbId : Nat) (title : String) (year : Option Nat)
    (pairs : List (Nat × Nat)) : List ResolveResult × Store :=
  let r := contestLoop torrentId torrentScore tmdbId title year pairs s
  if r.1 ≠ [] ∧ r.1.all (fun o => o == ResolveResult.lost) then
    (r.1, updateTorrentArchived r.2 torrentId)
  else r

/-- Whether the store holds the torrent as archived. -/
def archivedInStore (s : Store) (tid : String) : Bool :=
  match getTorrentById s tid with
  | some t => t.archived
  | none => false

/-- Helper: the archived flag only depends on the torrents collection. -/
theorem archivedInStore_congr_torrents {x y : Store} (t : String)
    (h : x.torrents = y.torrents) : archivedInStore x t = archivedInStore y t := by
  unfold archivedInStore getTorrentById
  rw [h]

/-- Helper: archiving one torrent does not affect another's flag. -/
theorem archivedInStore_update_ne (s : Store) (E T : String) (hne : ¬ T = E) :
    archivedInStore (updateTorrentArchived s E) T = archivedInStore s T := by
  unfold archivedInStore getTorrentById updateTorrentArchived
  rw [find?_map_pred _ _ _ (fun t => by by_cases h : t.id == E <;> simp [h])]
  cases hf : s.torrents.find? (fun t => t.id == T) with
  | none => rfl
  | some r =>
    have hrT : r.id = T := by simpa using List.find?_some hf
    simp [hrT, hne]

/-- Helper: a won contest never changes the calling torrent's archived
flag — the orphan check runs against the displaced torrent, and when that
is the caller itself the just-reassigned episode row keeps it alive. -/
theorem archived_after_won_step (s : Store) (T : String) (ex : ShowRec)
    (hmem : ex ∈ s.shows) :
    archivedInStore (maybeArchiveOrphan (updateShowTorrent s ex.id T) ex.torrent) T
      = archivedInStore s T := by
  have hut : (updateShowTorrent s ex.id T).torrents = s.torrents := rfl
  by_cases hTE : T = ex.torrent
  · rw [maybeArchiveOrphan_of_show_mem]
    · exact archivedInStore_congr_torrents T hut
    · apply List.ne_nil_of_mem (a := { ex with torrent := T })
      apply List.mem_filter.mpr
      refine ⟨?_, by simp [hTE]⟩
      have : ({ ex with torrent := T } : ShowRec)
          = (fun r => if r.id == ex.id then { r with torrent := T } else r) ex := by
        simp
      rw [this]
      exact List.mem_map_of_mem _ hmem
  · unfold maybeArchiveOrphan
    split
    · exact archivedInStore_congr_torrents T hut
    · split
      · exact archivedInStore_congr_torrents T hut
      · rw [archivedInStore_update_ne _ ex.torrent T hTE]
        exact archivedInStore_congr_torrents T hut

/-- Helper: the whole contest loop preserves the calling torrent's
archived flag. -/
theorem contestLoop_archived (torrentId : String) (torrentScore : Int)
    (tmdbId : Nat) (title : String) (year : Option Nat) :
    ∀ (pairs : List (Nat × Nat)) (s : Store),
      archivedInStore
          (contestLoop torrentId torrentScore tmdbId title year pairs s).2 torrentId
        = archivedInStore s torrentId := by
  intro pairs
  induction pairs with
  | nil => intro s; rfl
  | cons p rest ih =>
    intro s
    rcases p with ⟨season, ep⟩
    show archivedInStore (contestLoop torrentId torrentScore tmdbId title year
      ((season, ep) :: rest) s).2 torrentId = archivedInStore s torrentId
    unfold contestLoop
    cases hget : getShowEpisode s tmdbId season ep with
    | none =>
      dsimp only
      rw [ih]
      exact archivedInStore_congr_torrents torrentId rfl
    | some ex =>
      dsimp only
      by_cases hext : ex.torrent = ""
      · rw [if_pos hext]
        dsimp only
        rw [ih]
        exact archivedInStore_congr_torrents torrentId rfl
      · rw [if_neg hext]
        by_cases hsc : torrentScore > torrentScoreOf s ex.torrent
        · rw [if_pos hsc]
          dsimp only
          rw [ih]
          exact archived_after_won_step s torrentId ex (List.mem_of_find?_eq_some hget)
        · rw [if_neg hsc]
          dsimp only
          rw [ih]

/-- C5. A lost episode contest performs no store writes (the new torrent
is in particular not archived by that call), and the contest section of
`_identify_show` archives the new torrent only when some episode was
matched and every matched episode lost its contest. -/
theorem claim_C5_lost_contests_frame :
    (∀ (s : Store) (torrentId : String) (torrentScore : Int) (tmdbId : Nat)
        (title : String) (year : Option Nat) (season episode : Nat),
      (resolveEpisodeDuplicate s torrentId torrentScore tmdbId title year season episode).1
          = ResolveResult.lost →
      (resolveEpisodeDuplicate s torrentId torrentScore tmdbId title year season episode).2 = s)
    ∧ (∀ (s : Store) (torrentId : String) (torrentScore : Int) (tmdbId : Nat)
        (title : String) (year : Option Nat) (pairs : List (Nat × Nat)),
      archivedInStore (identifyShowContests s torrentId torrentScore tmdbId title year pairs).2
          torrentId = true →
      archivedInStore s torrentId = true
      ∨ ((identifyShowContests s torrentId torrentScore tmdbId title year pairs).1 ≠ []
        ∧ (identifyShowContests s torrentId torrentScore tmdbId title year pairs).1.all
            (fun o => o == ResolveResult.lost) = true)) := by
  constructor
  · intro s torrentId torrentScore tmdbId title year season episode h
    rcases hget : getShowEpisode s tmdbId season episode with _ | ex
    · have h1 : resolveEpisodeDuplicate s torrentId torrentScore tmdbId title year season episode
          = (.created, createShow s torrentId tmdbId title year season episode) := by
        unfold resolveEpisodeDuplicate
        rw [hget]
      rw [h1] at h
      exact absurd h (by simp)
    · by_cases hext : ex.torrent = ""
      · have h1 : resolveEpisodeDuplicate s torrentId torrentScore tmdbId title year season episode
            = (.relinked, updateShowTorrent s ex.id torrentId) := by
          unfold resolveEpisodeDuplicate
          rw [hget]
          dsimp only
          rw [if_pos hext]
        rw [h1] at h
        exact absurd h (by simp)
      · by_cases hsc : torrentScore > torrentScoreOf s ex.torrent
        · have h1 : resolveEpisodeDuplicate s torrentId torrentScore tmdbId title year season episode
              = (.won, maybeArchiveOrphan (updateShowTorrent s ex.id torrentId) ex.torrent) := by
            unfold resolveEpisodeDuplicate
            rw [hget]
            dsimp only
            rw [if_neg hext, if_pos hsc]
          rw [h1] at h
          exact absurd h (by simp)
        · have h1 : resolveEpisodeDuplicate s torrentId torrentScore tmdbId title year season episode
              = (.lost, s) := by
            unfold resolveEpisodeDuplicate
            rw [hget]
            dsimp only
            rw [if_neg hext, if_neg hsc]
          rw [h1]
  · intro s torrentId torrentScore tmdbId title year pairs harch
    have hr : identifyShowContests s torrentId torrentScore tmdbId title year pairs
        = (if (contestLoop torrentId torrentScore tmdbId title year pairs s).1 ≠ []
              ∧ (contestLoop torrentId torrentScore tmdbId title year pairs s).1.all
                  (fun o => o == ResolveResult.lost) then
            ((contestLoop torrentId torrentScore tmdbId title year pairs s).1,
              updateTorrentArchived
                (contestLoop torrentId torrentScore tmdbId title year pairs s).2 torrentId)
          else contestLoop torrentId torrentScore tmdbId title year pairs s) := rfl
    rw [hr] at harch ⊢
    by_cases hcond : (contestLoop torrentId torrentScore tmdbId title year pairs s).1 ≠ []
        ∧ (contestLoop torrentId torrentScore tmdbId title year pairs s).1.all
            (fun o => o == ResolveResult.lost)
    · rw [if_pos hcond]
      exact Or.inr ⟨hcond.1, hcond.2⟩
    · rw [if_neg hcond] at harch
      rw [contestLoop_archived] at harch
      exact Or.inl harch

/-- Store used by the C5 witness: the existing torrent outscores the new
one on the only matched episode. -/
def c5Store : Store :=
  ⟨[⟨"tE", "E", "/zurg/E", 200, false, false, "", 0⟩,
    ⟨"tN", "N", "/zurg/N", 100, false, false, "", 0⟩],
   [], [⟨"s1", "tE", 42, "T", 0, 1, 2⟩], 0⟩

/-- Witness for C5 at a concrete input: the lost contest writes nothing,
and the all-lost loop is the only archiver of the new torrent. -/
theorem claim_C5_witness :
    (resolveEpisodeDuplicate c5Store "tN" 100 42 "T" none 1 2).2 = c5Store
    ∧ (archivedInStore c5Store "tN" = true
      ∨ ((identifyShowContests c5Store "tN" 100 42 "T" none [(1, 2)]).1 ≠ []
        ∧ (identifyShowContests c5Store "tN" 100 42 "T" none [(1, 2)]).1.all
            (fun o => o == ResolveResult.lost) = true)) :=
  ⟨claim_C5_lost_contests_frame.1 c5Store "tN" 100 42 "T" none 1 2 (by decide),
   claim_C5_lost_contests_frame.2 c5Store "tN" 100 42 "T" none [(1, 2)] (by decide)⟩

/-! ### Phase C — `phase_c_detect_removed` (claim C2)

`constants.py` defines the repair configuration and `rd_api.py` the
Real-Debrid client, but `phase_c_detect_removed` (organiser.py lines
1142-1177) consults none of them: every torrent row whose path is missing
is orphaned and deleted unconditionally. -/

/-- Constant `REPAIR_ENABLED` (constants.py line 37; env default
`"true"`). -/
def REPAIR_ENABLED : Bool := true

/-- Constant `MAX_REPAIR_ATTEMPTS` (constants.py line 38; env default
`"3"`). -/
def MAX_REPAIR_ATTEMPTS : Nat := 3

/-- The film-orphaning loop of Phase C: clear the torrent relation on
every film that referenced the removed torrent. -/
def orphanFilms (s : Store) (tid : String) : Store :=
  (listFilmsByTorrent s tid).foldl (fun acc f => updateFilmTorrent acc f.id "") s

/-- The show-orphaning loop of Phase C. -/
def orphanShows (s : Store) (tid : String) : Store :=
  (listShowsByTorrent s tid).foldl (fun acc r => updateShowTorrent acc r.id "") s

/-- Function `phase_c_detect_removed` over a mount-existence oracle: for
every torrent row whose path is missing, orphan its films and shows and
delete the row. -/
def phaseCDetectRemoved (pathExists : String → Bool) (s : Store) : Store :=
  s.torrents.foldl
    (fun acc t =>
      if t.path = "" then acc
      else if pathExists t.path then acc
      else deleteTorrent (orphanShows (orphanFilms acc t.id) t.id) t.id)
    s

/-- Store of the C2 failing input: one torrent with a known hash and no
repair attempts, whose path has vanished, with one film row linked to
it. -/
def c2Store : Store :=
  ⟨[⟨"t1", "Gone.Movie.2016", "/zurg/Gone.Movie.2016", 100, false, false,
     "abcdef0123456789", 0⟩],
   [⟨"f1", "t1", 42, "Gone Movie", 2016⟩], [], 7⟩

/-- C2 evaluated at the failing input.  Repair is enabled, the torrent's
hash is known, and `repair_attempts = 0 < MAX_REPAIR_ATTEMPTS`, so the
claim requires Phase C to attempt `addMagnet` and leave the row in place;
but `phase_c_detect_removed` deletes the torrent row and orphans its film
(it never consults `REPAIR_ENABLED`, the hash, `repair_attempts`, or the
debrid client). -/
theorem claim_C2_phase_c_deletes_repairable_row :
    REPAIR_ENABLED = true
    ∧ c2Store.torrents.map (fun t => t.hash) = ["abcdef0123456789"]
    ∧ c2Store.torrents.map (fun t => t.repairAttempts) = [0]
    ∧ 0 < MAX_REPAIR_ATTEMPTS
    ∧ (phaseCDetectRemoved (fun _ => false) c2Store).torrents = []
    ∧ (phaseCDetectRemoved (fun _ => false) c2Store).films.map (fun f => f.torrent)
        = [""] := by
  decide

/-! ### Phase D — `phase_d_build_symlinks` and `_prune_empty_dirs`
(claims C1, C3)

Paths are component lists (absolute, from the filesystem root).  The
filesystem state is the set of symlinks (with the link text each stores)
and the set of directories; the mount itself is outside the model — Phase
D only reads it to build `desired`, which is taken as input here.  A
directory is empty exactly when no existing path lies strictly below it
(filesystem trees are closed under parents, so `any(d.iterdir())` is
equivalent to the existence of a strictly deeper entry).  The snapshot
`sorted(directory.rglob("*"), reverse=True)` is modelled by a descending
lexicographic sort of the component lists; it agrees with the source's
descending path-string sort on every ancestor/descendant pair, which is
the only order the pruning pass is sensitive to. -/

/-- Absolute paths as component lists. -/
abbrev FsPath := List String

/-- Constant `FILMS_DIR` (`/media/films`). -/
def FILMS_DIR : FsPath := ["media", "films"]

/-- Constant `SHOWS_DIR` (`/media/shows`). -/
def SHOWS_DIR : FsPath := ["media", "shows"]

/-- `dirLeads d e`: path `e` lies strictly below directory `d`. -/
def dirLeads : FsPath → FsPath → Bool
  | [], [] => false
  | [], _ :: _ => true
  | _ :: _, [] => false
  | a :: as, b :: bs => a == b && dirLeads as bs

/-- The on-disk state Phase D manipulates. -/
structure FsState where
  symlinks : List (FsPath × String)
  dirs : List FsPath
deriving DecidableEq

/-- The filesystem calls the diff loops issue (`_prune_empty_dirs` uses
`rmdir`, not `unlink`, and is not traced). -/
inductive FsAction where
  | unlink : FsPath → FsAction
  | symlink : FsPath → String → FsAction
  | mkdirParents : FsPath → FsAction
deriving DecidableEq

/-- Dict lookup on an association list (first entry wins, as the model
keeps keys unique). -/
def lookupA (m : List (FsPath × String)) (p : FsPath) : Option String :=
  (m.find? (fun e => e.1 == p)).map (fun e => e.2)

/-- `unlink p`: drop every entry stored at `p`. -/
def removeKey (p : FsPath) (m : List (FsPath × String)) : List (FsPath × String) :=
  m.filter (fun e => !(e.1 == p))

/-- The strict ancestors of a path below the filesystem root. -/
def ancestorsOf (p : FsPath) : List FsPath :=
  ((List.range p.length).drop 1).map (fun k => p.take k)

/-- `mkdir(parents=True, exist_ok=True)` on the parent chain: add each
missing ancestor. -/
def addDirs (ds : List FsPath) (dirs : List FsPath) : List FsPath :=
  ds.foldl (fun acc d => if d ∈ acc then acc else acc ++ [d]) dirs

/-- Function `_collect_existing_symlinks` applied to both roots and
merged (`{**existing_films, **existing_shows}`): every symlink strictly
below either root, with its stored link text. -/
def collectOnDisk (st : FsState) : List (FsPath × String) :=
  st.symlinks.filter (fun e => dirLeads FILMS_DIR e.1 || dirLeads SHOWS_DIR e.1)

/-- The create/update loop of `phase_d_build_symlinks`: an on-disk entry
with the right target is skipped; a wrong target is unlinked and
re-created; a missing entry gets its parent directories and a fresh
symlink. -/
def applyCreateUpdate (onDisk : List (FsPath × String)) :
    List (FsPath × String) → FsState → FsState × List FsAction
  | [], s => (s, [])
  | (p, t) :: rest, s =>
    match lookupA onDisk p with
    | some t' =>
      if t' = t then applyCreateUpdate onDisk rest s
      else
        let next := applyCreateUpdate onDisk rest
          { s with symlinks := removeKey p s.symlinks ++ [(p, t)] }
        (next.1, .unlink p :: .symlink p t :: next.2)
    | none =>
      let next := applyCreateUpdate onDisk rest
        { symlinks := s.symlinks ++ [(p, t)],
          dirs := addDirs (ancestorsOf p) s.dirs }
      (next.1, .mkdirParents p :: .symlink p t :: next.2)

/-- The removal loop of `phase_d_build_symlinks`: unlink every on-disk
symlink whose path is absent from the desired map. -/
def applyRemove (desired : List (FsPath × String)) :
    List (FsPath × String) → FsState → FsState × List FsAction
  | [], s => (s, [])
  | (p, _) :: rest, s =>
    if (lookupA desired p).isNone then
      let next := applyRemove desired rest { s with symlinks := removeKey p s.symlinks }
      (next.1, .unlink p :: next.2)
    else applyRemove desired rest s

/-- Lexicographic order on component paths (`≤`). -/
def pathLe : FsPath → FsPath → Bool
  | [], _ => true
  | _ :: _, [] => false
  | a :: as, b :: bs =>
    if a < b then true else if b < a then false else pathLe as bs

/-- Helper: `pathLe` is total. -/
theorem pathLe_total : ∀ a b : FsPath, pathLe a b = true ∨ pathLe b a = true := by
  intro a
  induction a with
  | nil => intro b; exact Or.inl rfl
  | cons x xs ih =>
    intro b
    cases b with
    | nil => exact Or.inr rfl
    | cons y ys =>
      rcases lt_trichotomy x y with h | h | h
      · left; simp [pathLe, h]
      · subst h
        rcases ih ys with h' | h'
        · left; simp [pathLe, lt_irrefl, h']
        · right; simp [pathLe, lt_irrefl, h']
      · right; simp [pathLe, h]

/-- Helper: `pathLe` is transitive. -/
theorem pathLe_trans : ∀ a b c : FsPath,
    pathLe a b = true → pathLe b c = true → pathLe a c = true := by
  intro a
  induction a with
  | nil => intro b c _ _; rfl
  | cons x xs ih =>
    intro b c hab hbc
    cases b with
    | nil => exact absurd hab (by simp [pathLe])
    | cons y ys =>
      cases c with
      | nil => exact absurd hbc (by simp [pathLe])
      | cons z zs =>
        unfold pathLe at hab hbc ⊢
        by_cases hxy : x < y
        · by_cases hyz : y < z
          · rw [if_pos (lt_trans hxy hyz)]
          · by_cases hzy : z < y
            · rw [if_neg hyz, if_pos hzy] at hbc
              exact absurd hbc (by simp)
            · have heq : y = z := le_antisymm (not_lt.mp hzy) (not_lt.mp hyz)
              subst heq
              rw [if_pos hxy]
        · by_cases hyx : y < x
          · rw [if_neg hxy, if_pos hyx] at hab
            exact absurd hab (by simp)
          · have heq : x = y := le_antisymm (not_lt.mp hyx) (not_lt.mp hxy)
            subst heq
            rw [if_neg (lt_irrefl x), if_neg (lt_irrefl x)] at hab
            by_cases hyz : x < z
            · rw [if_pos hyz]
            · by_cases hzy : z < x
              · rw [if_neg hyz, if_pos hzy] at hbc
                exact absurd hbc (by simp)
              · have heq2 : x = z := le_antisymm (not_lt.mp hzy) (not_lt.mp hyz)
                subst heq2
                rw [if_neg (lt_irrefl x), if_neg (lt_irrefl x)] at hbc
                rw [if_neg (lt_irrefl x), if_neg (lt_irrefl x)]
                exact ih ys zs hab hbc

instance : IsTotal FsPath (fun a b => pathLe b a = true) :=
  ⟨fun a b => (pathLe_total b a).elim Or.inl Or.inr⟩

instance : IsTrans FsPath (fun a b => pathLe b a = true) :=
  ⟨fun _ _ _ hab hbc => pathLe_trans _ _ _ hbc hab⟩

/-- The descending sort of the prune snapshot
(`sorted(..., reverse=True)`). -/
def sortDesc (l : List FsPath) : List FsPath :=
  List.insertionSort (fun a b => pathLe b a = true) l

/-- A directory is empty iff no existing path lies strictly below it. -/
def isEmptyDir (s : FsState) (d : FsPath) : Bool :=
  s.dirs.all (fun e => !(dirLeads d e)) && s.symlinks.all (fun e => !(dirLeads d e.1))

/-- `rmdir d`. -/
def removeDir (d : FsPath) (s : FsState) : FsState :=
  { s with dirs := s.dirs.filter (fun e => !(e == d)) }

/-- One iteration of the prune loop
(`if dirpath.is_dir() and not any(dirpath.iterdir()): rmdir`). -/
def pruneStep (s : FsState) (d : FsPath) : FsState :=
  if d ∈ s.dirs ∧ isEmptyDir s d then removeDir d s else s

/-- Function `_prune_empty_dirs`: walk the snapshot of directories under
the root in descending path order, removing each that is empty when
visited. -/
def pruneEmptyDirs (root : FsPath) (s : FsState) : FsState :=
  (sortDesc (s.dirs.filter (fun d => dirLeads root d))).foldl pruneStep s

/-- Function `phase_d_build_symlinks`: collect the on-disk map, run the
create/update loop then the removal loop, prune both roots; returns the
final state and the unlink/symlink/mkdir trace of the two diff loops. -/
def phaseDBuildSymlinks (desired : List (FsPath × String)) (st : FsState) :
    FsState × List FsAction :=
  let onDisk := collectOnDisk st
  let r1 := applyCreateUpdate onDisk desired st
  let r2 := applyRemove desired onDisk r1.1
  (pruneEmptyDirs SHOWS_DIR (pruneEmptyDirs FILMS_DIR r2.1), r1.2 ++ r2.2)

/-- Helper: no path lies strictly below itself. -/
theorem dirLeads_irrefl : ∀ d : FsPath, dirLeads d d = false := by
  intro d
  induction d with
  | nil => rfl
  | cons a as ih => simp [dirLeads, ih]

/-- Helper: nothing lies strictly below a path's descendant without lying
below the path. -/
theorem dirLeads_trans : ∀ r d e : FsPath,
    dirLeads r d = true → dirLeads d e = true → dirLeads r e = true := by
  intro r
  induction r with
  | nil =>
    intro d e _ h2
    cases e with
    | nil => cases d <;> simp [dirLeads] at h2
    | cons c t => rfl
  | cons a as ih =>
    intro d e h1 h2
    cases d with
    | nil => simp [dirLeads] at h1
    | cons b bs =>
      cases e with
      | nil => simp [dirLeads] at h2
      | cons c t =>
        unfold dirLeads at h1 h2 ⊢
        simp only [Bool.and_eq_true, beq_iff_eq] at h1 h2 ⊢
        exact ⟨h1.1.trans h2.1, ih bs t h1.2 h2.2⟩

/-- Helper: a strict descendant is strictly greater in the lexicographic
path order. -/
theorem dirLeads_pathLe : ∀ d e : FsPath, dirLeads d e = true → pathLe e d = false := by
  intro d
  induction d with
  | nil =>
    intro e h
    cases e with
    | nil => simp [dirLeads] at h
    | cons c t => rfl
  | cons a as ih =>
    intro e h
    cases e with
    | nil => simp [dirLeads] at h
    | cons c t =>
      unfold dirLeads at h
      simp only [Bool.and_eq_true, beq_iff_eq] at h
      rcases h with ⟨hac, ht⟩
      subst hac
      unfold pathLe
      rw [if_neg (lt_irrefl a), if_neg (lt_irrefl a)]
      exact ih t ht

/-- Helper: the films root and the shows root have disjoint subtrees. -/
theorem roots_disjoint : ∀ e : FsPath,
    dirLeads FILMS_DIR e = true → dirLeads SHOWS_DIR e = false := by
  intro e h
  cases e with
  | nil => simp [dirLeads, FILMS_DIR] at h
  | cons a e1 =>
    cases e1 with
    | nil => simp [dirLeads, FILMS_DIR] at h
    | cons b e2 =>
      simp only [FILMS_DIR, dirLeads, Bool.and_eq_true, beq_iff_eq] at h
      rcases h with ⟨_, hb, _⟩
      subst hb
      simp [SHOWS_DIR, dirLeads]

/-- Helper: the prune pass never touches symlinks. -/
theorem pruneStep_symlinks (s : FsState) (d : FsPath) :
    (pruneStep s d).symlinks = s.symlinks := by
  unfold pruneStep removeDir
  split <;> rfl

/-- Helper: the whole prune fold never touches symlinks. -/
theorem pruneFold_symlinks : ∀ (l : List FsPath) (s : FsState),
    (l.foldl pruneStep s).symlinks = s.symlinks := by
  intro l
  induction l with
  | nil => intro s; rfl
  | cons x rest ih =>
    intro s
    rw [List.foldl_cons, ih, pruneStep_symlinks]

/-- Helper: one prune step only removes directories. -/
theorem pruneStep_dirs_subset {s : FsState} {d x : FsPath}
    (h : x ∈ (pruneStep s d).dirs) : x ∈ s.dirs := by
  unfold pruneStep removeDir at h
  split at h
  · exact (List.mem_filter.mp h).1
  · exact h

/-- Helper: the prune fold only removes directories. -/
theorem pruneFold_dirs_subset : ∀ (l : List FsPath) (s : FsState) (x : FsPath),
    x ∈ (l.foldl pruneStep s).dirs → x ∈ s.dirs := by
  intro l
  induction l with
  | nil => intro s x h; exact h
  | cons y rest ih =>
    intro s x h
    rw [List.foldl_cons] at h
    exact pruneStep_dirs_subset (ih _ x h)

/-- Helper: a prune step removes only the directory it visits. -/
theorem pruneStep_keep {s : FsState} {d x : FsPath} (hne : x ≠ d)
    (h : x ∈ s.dirs) : x ∈ (pruneStep s d).dirs := by
  unfold pruneStep removeDir
  split
  · exact List.mem_filter.mpr ⟨h, by simp [hne]⟩
  · exact h

/-- Helper: a directory not on the remaining worklist survives the fold. -/
theorem pruneFold_keep : ∀ (l : List FsPath) (s : FsState) (x : FsPath),
    x ∈ s.dirs → x ∉ l → x ∈ (l.foldl pruneStep s).dirs := by
  intro l
  induction l with
  | nil => intro s x h _; exact h
  | cons y rest ih =>
    intro s x h hnl
    rw [List.foldl_cons]
    exact ih _ x (pruneStep_keep (fun hx => hnl (hx ▸ List.mem_cons_self y rest)) h)
      (fun hx => hnl (List.mem_cons_of_mem y hx))

/-- Helper: a directory that survives its own visit was non-empty then. -/
theorem pruneStep_self {s : FsState} {d : FsPath}
    (h : d ∈ (pruneStep s d).dirs) : isEmptyDir s d = false := by
  unfold pruneStep at h
  by_cases hc : d ∈ s.dirs ∧ isEmptyDir s d = true
  · rw [if_pos hc] at h
    unfold removeDir at h
    have := (List.mem_filter.mp h).2
    simp at this
  · rw [if_neg hc] at h
    cases hE : isEmptyDir s d
    · rfl
    · exact absurd ⟨h, hE⟩ hc

/-- Helper: in the descending-sorted snapshot no directory is visited
before its own ancestor. -/
theorem sortDesc_pairwise_not_dirLeads (l : List FsPath) :
    (sortDesc l).Pairwise (fun a b => dirLeads a b = false) := by
  have hs : (sortDesc l).Pairwise (fun a b => pathLe b a = true) :=
    List.sorted_insertionSort _ l
  refine hs.imp ?_
  intro a b h
  cases hd : dirLeads a b
  · rfl
  · rw [dirLeads_pathLe a b hd] at h
    exact absurd h (by simp)

/-- Helper: membership in the sorted snapshot. -/
theorem sortDesc_mem {l : List FsPath} {x : FsPath} : x ∈ sortDesc l ↔ x ∈ l :=
  (List.perm_insertionSort _ _).mem_iff

/-- Helper: after a children-before-parents prune pass, every surviving
directory on the worklist is non-empty in the final state. -/
theorem pruneFold_no_empty : ∀ (l : List FsPath),
    l.Pairwise (fun a b => dirLeads a b = false) →
    ∀ (s : FsState) (d : FsPath),
      d ∈ (l.foldl pruneStep s).dirs → d ∈ l →
      isEmptyDir (l.foldl pruneStep s) d = false := by
  intro l
  induction l with
  | nil => intro _ s d _ h; simp at h
  | cons x rest ih =>
    intro hpw s d hdmem hdl
    rw [List.foldl_cons] at hdmem ⊢
    by_cases hdrest : d ∈ rest
    · exact ih hpw.of_cons _ d hdmem hdrest
    · have hdx : d = x := by
        rcases List.mem_cons.mp hdl with h | h
        · exact h
        · exact absurd h hdrest
      subst hdx
      have hdstep : d ∈ (pruneStep s d).dirs := pruneFold_dirs_subset rest _ d hdmem
      have hne : isEmptyDir s d = false := pruneStep_self hdstep
      unfold isEmptyDir at hne
      rcases Bool.and_eq_false_iff.mp hne with hcase | hcase
      · rcases List.all_eq_false.mp hcase with ⟨e, he, hbe⟩
        have hde : dirLeads d e = true := by simpa using hbe
        have hnex : e ≠ d := by
          intro h
          rw [h, dirLeads_irrefl] at hde
          exact absurd hde (by simp)
        have he1 : e ∈ (pruneStep s d).dirs := pruneStep_keep hnex he
        have herest : e ∉ rest := by
          intro hc
          have hfalse := (List.pairwise_cons.mp hpw).1 e hc
          rw [hde] at hfalse
          exact absurd hfalse (by simp)
        have hefin : e ∈ (rest.foldl pruneStep (pruneStep s d)).dirs :=
          pruneFold_keep rest _ e he1 herest
        unfold isEmptyDir
        exact Bool.and_eq_false_iff.mpr
          (Or.inl (List.all_eq_false.mpr ⟨e, hefin, by simp [hde]⟩))
      · rcases List.all_eq_false.mp hcase with ⟨e, he, hbe⟩
        have hde : dirLeads d e.1 = true := by simpa using hbe
        have hefin : e ∈ (rest.foldl pruneStep (pruneStep s d)).symlinks := by
          rw [pruneFold_symlinks, pruneStep_symlinks]
          exact he
        unfold isEmptyDir
        exact Bool.and_eq_false_iff.mpr
          (Or.inr (List.all_eq_false.mpr ⟨e, hefin, by simp [hde]⟩))

/-- Helper: after pruning a root, no empty directory survives strictly
under it. -/
theorem pruneEmptyDirs_no_empty (root : FsPath) (s : FsState) :
    ∀ d ∈ (pruneEmptyDirs root s).dirs, dirLeads root d = true →
      isEmptyDir (pruneEmptyDirs root s) d = false := by
  intro d hd hroot
  unfold pruneEmptyDirs at hd ⊢
  refine pruneFold_no_empty _ (sortDesc_pairwise_not_dirLeads _) s d hd ?_
  have hds : d ∈ s.dirs := pruneFold_dirs_subset _ s d hd
  exact sortDesc_mem.mpr (List.mem_filter.mpr ⟨hds, by simp [hroot]⟩)

/-- Helper: with unique keys, a stored pair is what lookup returns. -/
theorem lookupA_eq_of_mem_nodup : ∀ {l : List (FsPath × String)} {p : FsPath} {t : String},
    (l.map Prod.fst).Nodup → (p, t) ∈ l → lookupA l p = some t := by
  intro l
  induction l with
  | nil => intro p t _ h; simp at h
  | cons e rest ih =>
    intro p t hnd hmem
    rcases List.mem_cons.mp hmem with heq | hmem'
    · rw [← heq]
      unfold lookupA
      rw [List.find?_cons_of_pos _ (by simp)]
      rfl
    · have hne : ¬ (e.1 == p) = true := by
        simp only [beq_iff_eq]
        intro hc
        have h1 : e.1 ∉ rest.map Prod.fst := (List.nodup_cons.mp (by simpa using hnd)).1
        have h2 : p ∈ rest.map Prod.fst := by
          have := List.mem_map_of_mem Prod.fst hmem'
          simpa using this
        exact h1 (hc ▸ h2)
      have hne2 : (e.1 == p) = false := by simpa using hne
      have hrest := ih (show (rest.map Prod.fst).Nodup
        from (List.nodup_cons.mp (by simpa using hnd)).2) hmem'
      simp only [lookupA] at hrest
      simp only [lookupA, List.find?_cons, hne2]
      exact hrest

/-- Helper: lookup misses keys that are not stored. -/
theorem lookupA_none_of_not_mem {l : List (FsPath × String)} {p : FsPath}
    (h : p ∉ l.map Prod.fst) : lookupA l p = none := by
  unfold lookupA
  rw [List.find?_eq_none.mpr]
  · rfl
  · intro e he
    simp only [beq_iff_eq]
    intro hc
    exact h (hc ▸ List.mem_map_of_mem Prod.fst he)

/-- Helper: every unlink issued by the create/update loop is for a desired
path whose on-disk target differs from the desired one. -/
theorem applyCreateUpdate_unlink_mem (onDisk : List (FsPath × String)) :
    ∀ (rest : List (FsPath × String)) (s : FsState) (p : FsPath),
      FsAction.unlink p ∈ (applyCreateUpdate onDisk rest s).2 →
      ∃ t', (p, t') ∈ rest ∧ lookupA onDisk p ≠ some t' := by
  intro rest
  induction rest with
  | nil => intro s p h; simp [applyCreateUpdate] at h
  | cons e rest ih =>
    intro s p h
    rcases e with ⟨q, tq⟩
    unfold applyCreateUpdate at h
    rcases hod : lookupA onDisk q with _ | t'
    · rw [hod] at h
      dsimp only at h
      rcases List.mem_cons.mp h with h1 | h1
      · exact FsAction.noConfusion h1
      · rcases List.mem_cons.mp h1 with h2 | h2
        · exact FsAction.noConfusion h2
        · rcases ih _ p h2 with ⟨u, hu, hne⟩
          exact ⟨u, List.mem_cons_of_mem _ hu, hne⟩
    · rw [hod] at h
      dsimp only at h
      by_cases heq : t' = tq
      · rw [if_pos heq] at h
        rcases ih _ p h with ⟨u, hu, hne⟩
        exact ⟨u, List.mem_cons_of_mem _ hu, hne⟩
      · rw [if_neg heq] at h
        dsimp only at h
        rcases List.mem_cons.mp h with h1 | h1
        · have hpq : p = q := by
            simpa using h1
          refine ⟨tq, ?_, ?_⟩
          · rw [hpq]; exact List.mem_cons_self _ _
          · rw [hpq, hod]
            exact fun hc => heq (Option.some.inj hc)
        · rcases List.mem_cons.mp h1 with h2 | h2
          · exact FsAction.noConfusion h2
          · rcases ih _ p h2 with ⟨u, hu, hne⟩
            exact ⟨u, List.mem_cons_of_mem _ hu, hne⟩

/-- Helper: every unlink issued by the removal loop is for a path absent
from the desired map. -/
theorem applyRemove_unlink_mem (desired : List (FsPath × String)) :
    ∀ (l : List (FsPath × String)) (s : FsState) (p : FsPath),
      FsAction.unlink p ∈ (applyRemove desired l s).2 →
      lookupA desired p = none := by
  intro l
  induction l with
  | nil => intro s p h; simp [applyRemove] at h
  | cons e rest ih =>
    intro s p h
    rcases e with ⟨q, tq⟩
    unfold applyRemove at h
    by_cases hq : (lookupA desired q).isNone = true
    · rw [if_pos hq] at h
      dsimp only at h
      rcases List.mem_cons.mp h with h1 | h1
      · have hpq : p = q := by simpa using h1
        rw [hpq]
        exact Option.isNone_iff_eq_none.mp hq
      · exact ih _ p h1
    · rw [if_neg hq] at h
      exact ih _ p h

/-- C1. A symlink path present both in the desired map and on disk with
an on-disk link target equal to the desired one is never unlinked by
Phase D: the create/update loop skips it and the removal loop only
unlinks paths absent from the desired map, so the existing inode is
preserved. -/
theorem claim_C1_equal_symlink_never_unlinked
    (desired : List (FsPath × String)) (st : FsState) (p : FsPath) (t : String)
    (hnd : (desired.map Prod.fst).Nodup)
    (hdes : lookupA desired p = some t)
    (hdisk : lookupA (collectOnDisk st) p = some t) :
    FsAction.unlink p ∉ (phaseDBuildSymlinks desired st).2 := by
  intro hmem
  have hsplit : (phaseDBuildSymlinks desired st).2
      = (applyCreateUpdate (collectOnDisk st) desired st).2
        ++ (applyRemove desired (collectOnDisk st)
            (applyCreateUpdate (collectOnDisk st) desired st).1).2 := rfl
  rw [hsplit] at hmem
  rcases List.mem_append.mp hmem with h | h
  · rcases applyCreateUpdate_unlink_mem _ desired st p h with ⟨t', hmem', hne⟩
    have hlk : lookupA desired p = some t' := lookupA_eq_of_mem_nodup hnd hmem'
    rw [hdes] at hlk
    apply hne
    rw [hdisk]
    exact hlk
  · have hnone := applyRemove_unlink_mem desired _ _ p h
    rw [hdes] at hnone
    exact absurd hnone (by simp)

/-- Concrete inputs for the C1 witness. -/
def c1Path : FsPath := ["media", "films", "A (2020)", "A (2020).mkv"]

/-- Concrete desired map for the C1 witness. -/
def c1Desired : List (FsPath × String) := [(c1Path, "/zurg/A/A.mkv")]

/-- Concrete on-disk state for the C1 witness: the desired symlink already
exists with the desired target. -/
def c1State : FsState :=
  ⟨[(c1Path, "/zurg/A/A.mkv")],
   [["media"], ["media", "films"], ["media", "films", "A (2020)"]]⟩

/-- Witness for C1 at a concrete input. -/
theorem claim_C1_witness :
    FsAction.unlink c1Path ∉ (phaseDBuildSymlinks c1Desired c1State).2 :=
  claim_C1_equal_symlink_never_unlinked c1Desired c1State c1Path "/zurg/A/A.mkv"
    (by decide) (by decide) (by decide)

/-- Helper: filtering away entries a predicate never matches preserves
`find?`. -/
theorem find?_filter_of_imp {α : Type} (pr keep : α → Bool) :
    ∀ l : List α, (∀ x, pr x = true → keep x = true) →
      (l.filter keep).find? pr = l.find? pr := by
  intro l
  induction l with
  | nil => intro _; rfl
  | cons a l ih =>
    intro h
    by_cases hk : keep a = true
    · rw [List.filter_cons_of_pos hk]
      by_cases hp : pr a = true
      · rw [List.find?_cons_of_pos _ hp, List.find?_cons_of_pos _ hp]
      · rw [List.find?_cons_of_neg _ hp, List.find?_cons_of_neg _ hp]
        exact ih h
    · have hp : ¬ pr a = true := fun hc => hk (h a hc)
      rw [List.filter_cons_of_neg (by simpa using hk), List.find?_cons_of_neg _ hp]
      exact ih h

/-- Helper: unlinking one path leaves lookups at other paths alone. -/
theorem lookupA_removeKey_ne {q p : FsPath} (m : List (FsPath × String))
    (hne : q ≠ p) : lookupA (removeKey q m) p = lookupA m p := by
  unfold lookupA removeKey
  rw [find?_filter_of_imp _ _ m]
  intro x hx
  have hx1 : x.1 = p := by simpa using hx
  have hpq : (p == q) = false := beq_eq_false_iff_ne.mpr (Ne.symm hne)
  rw [hx1]
  simp [hpq]

/-- Helper: appending an entry for another key leaves a lookup alone. -/
theorem lookupA_append_single_ne {q p : FsPath} (m : List (FsPath × String))
    (t : String) (hne : q ≠ p) : lookupA (m ++ [(q, t)]) p = lookupA m p := by
  unfold lookupA
  rw [List.find?_append]
  cases hf : m.find? (fun e => e.1 == p) with
  | some a => rfl
  | none =>
    have h1 : ([((q, t) : FsPath × String)].find? (fun e => e.1 == p)) = none := by
      rw [List.find?_eq_none]
      intro x hx
      rw [List.mem_singleton] at hx
      subst hx
      simpa using hne
    rw [h1]
    rfl

/-- Helper: unlink-then-create stores the new target. -/
theorem lookupA_removeKey_self (m : List (FsPath × String)) (p : FsPath) (t : String) :
    lookupA (removeKey p m ++ [(p, t)]) p = some t := by
  unfold lookupA
  rw [List.find?_append]
  have h0 : ((removeKey p m).find? (fun e => e.1 == p)) = none := by
    rw [List.find?_eq_none]
    intro x hx
    have := (List.mem_filter.mp hx).2
    simpa using this
  rw [h0]
  have h1 : (([((p, t) : FsPath × String)]).find? (fun e => e.1 == p)) = some (p, t) := by
    rw [List.find?_cons_of_pos _ (by simp)]
  rw [h1]
  rfl

/-- Helper: creating a missing symlink stores the new target. -/
theorem lookupA_append_self_of_none (m : List (FsPath × String)) (p : FsPath)
    (t : String) (h : lookupA m p = none) : lookupA (m ++ [(p, t)]) p = some t := by
  unfold lookupA at h ⊢
  rw [List.find?_append]
  have h0 : m.find? (fun e => e.1 == p) = none := by
    cases hf : m.find? (fun e => e.1 == p) with
    | none => rfl
    | some a => rw [hf] at h; exact absurd h (by simp)
  rw [h0]
  have h1 : (([((p, t) : FsPath × String)]).find? (fun e => e.1 == p)) = some (p, t) := by
    rw [List.find?_cons_of_pos _ (by simp)]
  rw [h1]
  rfl

/-- Helper: the create/update loop changes lookups only at the keys it
processes. -/
theorem applyCreateUpdate_lookup_stable (onDisk : List (FsPath × String)) :
    ∀ (rest : List (FsPath × String)) (s : FsState) (r : FsPath),
      r ∉ rest.map Prod.fst →
      lookupA ((applyCreateUpdate onDisk rest s).1).symlinks r = lookupA s.symlinks r := by
  intro rest
  induction rest with
  | nil => intro s r _; rfl
  | cons e rest ih =>
    intro s r hr
    rcases e with ⟨p, t⟩
    have hrp : p ≠ r := by
      intro hc
      subst hc
      exact hr (by simp)
    unfold applyCreateUpdate
    rcases hod : lookupA onDisk p with _ | t'
    · dsimp only
      rw [ih _ r (fun hc => hr (List.mem_cons_of_mem _ hc))]
      exact lookupA_append_single_ne _ _ hrp
    · dsimp only
      by_cases heq : t' = t
      · rw [if_pos heq]
        exact ih _ r (fun hc => hr (List.mem_cons_of_mem _ hc))
      · rw [if_neg heq]
        dsimp only
        rw [ih _ r (fun hc => hr (List.mem_cons_of_mem _ hc))]
        show lookupA (removeKey p s.symlinks ++ [(p, t)]) r = _
        rw [lookupA_append_single_ne _ _ hrp]
        exact lookupA_removeKey_ne _ hrp

/-- Helper: after the create/update loop every desired entry reads back
its desired target, provided lookups at desired paths agreed with the
on-disk map beforehand. -/
theorem applyCreateUpdate_sets (onDisk : List (FsPath × String)) :
    ∀ (rest : List (FsPath × String)) (s : FsState),
      (rest.map Prod.fst).Nodup →
      (∀ e ∈ rest, lookupA s.symlinks e.1 = lookupA onDisk e.1) →
      ∀ e ∈ rest, lookupA ((applyCreateUpdate onDisk rest s).1).symlinks e.1 = some e.2 := by
  intro rest
  induction rest with
  | nil => intro s _ _ e he; simp at he
  | cons hd rest ih =>
    intro s hnd hinv e he
    rcases hd with ⟨p, t⟩
    have hnd2 : (p :: rest.map Prod.fst).Nodup := by
      rw [List.map_cons] at hnd
      exact hnd
    have hpnotin : p ∉ rest.map Prod.fst := (List.nodup_cons.mp hnd2).1
    have hnd' : (rest.map Prod.fst).Nodup := (List.nodup_cons.mp hnd2).2
    have hkey : ∀ e' ∈ rest, p ≠ e'.1 := by
      intro e' he' hc
      exact hpnotin (hc ▸ (by simpa using List.mem_map_of_mem Prod.fst he'))
    unfold applyCreateUpdate
    rcases hod : lookupA onDisk p with _ | t'
    · dsimp only
      have hinv' : ∀ e' ∈ rest,
          lookupA (s.symlinks ++ [(p, t)]) e'.1 = lookupA onDisk e'.1 := by
        intro e' he'
        rw [lookupA_append_single_ne _ _ (hkey e' he')]
        exact hinv e' (List.mem_cons_of_mem _ he')
      rcases List.mem_cons.mp he with rfl | he'
      · dsimp only
        rw [applyCreateUpdate_lookup_stable onDisk rest _ _ hpnotin]
        show lookupA (s.symlinks ++ [(p, t)]) p = some t
        apply lookupA_append_self_of_none
        rw [hinv (p, t) (List.mem_cons_self _ _)]
        exact hod
      · exact ih _ hnd' hinv' e he'
    · dsimp only
      by_cases heq : t' = t
      · rw [if_pos heq]
        have hinv' : ∀ e' ∈ rest, lookupA s.symlinks e'.1 = lookupA onDisk e'.1 :=
          fun e' he' => hinv e' (List.mem_cons_of_mem _ he')
        rcases List.mem_cons.mp he with rfl | he'
        · dsimp only
          rw [applyCreateUpdate_lookup_stable onDisk rest _ _ hpnotin]
          rw [hinv (p, t) (List.mem_cons_self _ _), hod, heq]
        · exact ih _ hnd' hinv' e he'
      · rw [if_neg heq]
        dsimp only
        have hinv' : ∀ e' ∈ rest,
            lookupA (removeKey p s.symlinks ++ [(p, t)]) e'.1 = lookupA onDisk e'.1 := by
          intro e' he'
          rw [lookupA_append_single_ne _ _ (hkey e' he'),
            lookupA_removeKey_ne _ (hkey e' he')]
          exact hinv e' (List.mem_cons_of_mem _ he')
        rcases List.mem_cons.mp he with rfl | he'
        · dsimp only
          rw [applyCreateUpdate_lookup_stable onDisk rest _ _ hpnotin]
          show lookupA (removeKey p s.symlinks ++ [(p, t)]) p = some t
          exact lookupA_removeKey_self _ _ _
        · exact ih _ hnd' hinv' e he'

/-- Helper: the create/update loop adds symlinks only at desired keys. -/
theorem applyCreateUpdate_mem (onDisk : List (FsPath × String)) :
    ∀ (rest : List (FsPath × String)) (s : FsState) (p : FsPath) (u : String),
      (p, u) ∈ ((applyCreateUpdate onDisk rest s).1).symlinks →
      (p, u) ∈ s.symlinks ∨ p ∈ rest.map Prod.fst := by
  intro rest
  induction rest with
  | nil => intro s p u h; exact Or.inl h
  | cons hd rest ih =>
    intro s p u h
    rcases hd with ⟨q, tq⟩
    unfold applyCreateUpdate at h
    rcases hod : lookupA onDisk q with _ | t'
    · rw [hod] at h
      dsimp only at h
      rcases ih _ p u h with hmem | hmem
      · rcases List.mem_append.mp hmem with h1 | h1
        · exact Or.inl h1
        · rw [List.mem_singleton] at h1
          have hpq : p = q := congrArg Prod.fst h1
          exact Or.inr (by rw [List.map_cons, hpq]; exact List.mem_cons_self _ _)
      · exact Or.inr (by rw [List.map_cons]; exact List.mem_cons_of_mem _ hmem)
    · rw [hod] at h
      dsimp only at h
      by_cases heq : t' = tq
      · rw [if_pos heq] at h
        rcases ih _ p u h with hmem | hmem
        · exact Or.inl hmem
        · exact Or.inr (by rw [List.map_cons]; exact List.mem_cons_of_mem _ hmem)
      · rw [if_neg heq] at h
        dsimp only at h
        rcases ih _ p u h with hmem | hmem
        · rcases List.mem_append.mp hmem with h1 | h1
          · exact Or.inl ((List.mem_filter.mp h1).1)
          · rw [List.mem_singleton] at h1
            have hpq : p = q := congrArg Prod.fst h1
            exact Or.inr (by rw [List.map_cons, hpq]; exact List.mem_cons_self _ _)
        · exact Or.inr (by rw [List.map_cons]; exact List.mem_cons_of_mem _ hmem)

/-- Helper: the removal loop leaves lookups at desired paths alone. -/
theorem applyRemove_lookup_kept (desired : List (FsPath × String)) :
    ∀ (l : List (FsPath × String)) (s : FsState) (p : FsPath),
      ¬ lookupA desired p = none →
      lookupA ((applyRemove desired l s).1).symlinks p = lookupA s.symlinks p := by
  intro l
  induction l with
  | nil => intro s p _; rfl
  | cons hd rest ih =>
    intro s p hp
    rcases hd with ⟨q, tq⟩
    unfold applyRemove
    by_cases hq : (lookupA desired q).isNone = true
    · rw [if_pos hq]
      dsimp only
      rw [ih _ p hp]
      apply lookupA_removeKey_ne
      intro hc
      exact hp (by rw [← hc]; exact Option.isNone_iff_eq_none.mp hq)
    · rw [if_neg hq]
      exact ih _ p hp

/-- Helper: the removal loop only removes symlinks. -/
theorem applyRemove_subset (desired : List (FsPath × String)) :
    ∀ (l : List (FsPath × String)) (s : FsState) (p : FsPath) (u : String),
      (p, u) ∈ ((applyRemove desired l s).1).symlinks → (p, u) ∈ s.symlinks := by
  intro l
  induction l with
  | nil => intro s p u h; exact h
  | cons hd rest ih =>
    intro s p u h
    rcases hd with ⟨q, tq⟩
    unfold applyRemove at h
    by_cases hq : (lookupA desired q).isNone = true
    · rw [if_pos hq] at h
      dsimp only at h
      exact (List.mem_filter.mp (ih _ p u h)).1
    · rw [if_neg hq] at h
      exact ih _ p u h

/-- Helper: every on-disk symlink whose path is absent from the desired
map is gone after the removal loop. -/
theorem applyRemove_removes (desired : List (FsPath × String)) :
    ∀ (l : List (FsPath × String)) (s : FsState) (p : FsPath) (u v : String),
      (p, u) ∈ l → lookupA desired p = none →
      (p, v) ∉ ((applyRemove desired l s).1).symlinks := by
  intro l
  induction l with
  | nil => intro s p u v h _; simp at h
  | cons hd rest ih =>
    intro s p u v hmem hnone hcon
    rcases hd with ⟨q, tq⟩
    unfold applyRemove at hcon
    by_cases hq : (lookupA desired q).isNone = true
    · rw [if_pos hq] at hcon
      dsimp only at hcon
      by_cases hpq : p = q
      · have hsub := applyRemove_subset desired rest _ p v hcon
        have hkeep := (List.mem_filter.mp hsub).2
        simp [hpq] at hkeep
      · rcases List.mem_cons.mp hmem with h1 | h1
        · exact hpq (congrArg Prod.fst h1)
        · exact ih _ p u v h1 hnone hcon
    · rw [if_neg hq] at hcon
      rcases List.mem_cons.mp hmem with h1 | h1
      · have hpq : p = q := congrArg Prod.fst h1
        rw [hpq] at hnone
        rw [hnone] at hq
        simp at hq
      · exact ih _ p u v h1 hnone hcon

/-- Helper: pruning never touches symlinks. -/
theorem pruneEmptyDirs_symlinks (root : FsPath) (s : FsState) :
    (pruneEmptyDirs root s).symlinks = s.symlinks :=
  pruneFold_symlinks _ _

/-- Helper: pruning the shows root cannot empty a directory under the
films root — its witnesses live in the disjoint films subtree. -/
theorem prune_shows_keeps_films_nonempty (s3 : FsState) (d : FsPath)
    (hF : dirLeads FILMS_DIR d = true)
    (hne3 : isEmptyDir s3 d = false) :
    isEmptyDir (pruneEmptyDirs SHOWS_DIR s3) d = false := by
  unfold isEmptyDir at hne3 ⊢
  rcases Bool.and_eq_false_iff.mp hne3 with hcase | hcase
  · rcases List.all_eq_false.mp hcase with ⟨e, he, hbe⟩
    have hde : dirLeads d e = true := by simpa using hbe
    have heF : dirLeads FILMS_DIR e = true := dirLeads_trans _ _ _ hF hde
    have heS : dirLeads SHOWS_DIR e = false := roots_disjoint e heF
    have hnotl : e ∉ sortDesc (s3.dirs.filter (fun x => dirLeads SHOWS_DIR x)) := by
      intro hc
      have hcond := (List.mem_filter.mp (sortDesc_mem.mp hc)).2
      rw [heS] at hcond
      exact absurd hcond (by simp)
    have hefin : e ∈ (pruneEmptyDirs SHOWS_DIR s3).dirs := by
      unfold pruneEmptyDirs
      exact pruneFold_keep _ _ e he hnotl
    exact Bool.and_eq_false_iff.mpr
      (Or.inl (List.all_eq_false.mpr ⟨e, hefin, by simp [hde]⟩))
  · rcases List.all_eq_false.mp hcase with ⟨e, he, hbe⟩
    have hde : dirLeads d e.1 = true := by simpa using hbe
    have hefin : e ∈ (pruneEmptyDirs SHOWS_DIR s3).symlinks := by
      rw [pruneEmptyDirs_symlinks]
      exact he
    exact Bool.and_eq_false_iff.mpr
      (Or.inr (List.all_eq_false.mpr ⟨e, hefin, by simp [hde]⟩))

/-- C3. After `phase_d_build_symlinks` (no filesystem errors — the model
executes every call successfully), the on-disk state equals the desired
map: every desired `(target, link)` pair reads back (`readlink(target) ==
link`), no symlink under `FILMS_DIR` or `SHOWS_DIR` has a path absent from
the desired map, and no empty directory remains strictly under either
root. -/
theorem claim_C3_phase_d_reconciles
    (desired : List (FsPath × String)) (st : FsState)
    (hnd : (desired.map Prod.fst).Nodup)
    (hroots : ∀ e ∈ desired,
      dirLeads FILMS_DIR e.1 = true ∨ dirLeads SHOWS_DIR e.1 = true)
    (hstnd : (st.symlinks.map Prod.fst).Nodup) :
    (∀ e ∈ desired,
      lookupA ((phaseDBuildSymlinks desired st).1).symlinks e.1 = some e.2)
    ∧ (∀ (p : FsPath) (u : String),
        (p, u) ∈ ((phaseDBuildSymlinks desired st).1).symlinks →
        (dirLeads FILMS_DIR p = true ∨ dirLeads SHOWS_DIR p = true) →
        p ∈ desired.map Prod.fst)
    ∧ (∀ d ∈ ((phaseDBuildSymlinks desired st).1).dirs,
        (dirLeads FILMS_DIR d = true ∨ dirLeads SHOWS_DIR d = true) →
        isEmptyDir ((phaseDBuildSymlinks desired st).1) d = false) := by
  have hfinal : (phaseDBuildSymlinks desired st).1
      = pruneEmptyDirs SHOWS_DIR (pruneEmptyDirs FILMS_DIR
          ((applyRemove desired (collectOnDisk st)
            (applyCreateUpdate (collectOnDisk st) desired st).1).1)) := rfl
  have hsyms : ((phaseDBuildSymlinks desired st).1).symlinks
      = ((applyRemove desired (collectOnDisk st)
          (applyCreateUpdate (collectOnDisk st) desired st).1).1).symlinks := by
    rw [hfinal, pruneEmptyDirs_symlinks, pruneEmptyDirs_symlinks]
  have hinv : ∀ e ∈ desired,
      lookupA st.symlinks e.1 = lookupA (collectOnDisk st) e.1 := by
    intro e he
    rcases hod : lookupA (collectOnDisk st) e.1 with _ | u
    · apply lookupA_none_of_not_mem
      intro hc
      rcases List.mem_map.mp hc with ⟨b, hbmem, hb1⟩
      have hbond : b ∈ collectOnDisk st := by
        apply List.mem_filter.mpr
        refine ⟨hbmem, ?_⟩
        rcases hroots e he with h | h
        · simp [hb1, h]
        · simp [hb1, h]
      have hfind : (collectOnDisk st).find? (fun x => x.1 == e.1) = none := by
        have := hod
        unfold lookupA at this
        cases hf : (collectOnDisk st).find? (fun x => x.1 == e.1) with
        | none => rfl
        | some a => rw [hf] at this; exact absurd this (by simp)
      have := List.find?_eq_none.mp hfind b hbond
      simp [hb1] at this
    · unfold lookupA at hod
      rcases Option.map_eq_some'.mp hod with ⟨a, ha, hau⟩
      have ha1 : a.1 = e.1 := by simpa using List.find?_some ha
      have hamem : a ∈ st.symlinks :=
        (List.mem_filter.mp (List.mem_of_find?_eq_some ha)).1
      have haeq : a = (e.1, u) := Prod.ext ha1 hau
      rw [haeq] at hamem
      exact lookupA_eq_of_mem_nodup hstnd hamem
  refine ⟨?_, ?_, ?_⟩
  · intro e he
    rw [hsyms]
    have hdesp : lookupA desired e.1 = some e.2 :=
      lookupA_eq_of_mem_nodup hnd (by simpa using he)
    rw [applyRemove_lookup_kept desired _ _ _ (by rw [hdesp]; simp)]
    exact applyCreateUpdate_sets (collectOnDisk st) desired st hnd hinv e he
  · intro p u hmem hrp
    by_contra hnotin
    have hdesnone : lookupA desired p = none := lookupA_none_of_not_mem hnotin
    rw [hsyms] at hmem
    have hmem1 : (p, u) ∈ ((applyCreateUpdate (collectOnDisk st) desired st).1).symlinks :=
      applyRemove_subset desired _ _ p u hmem
    have hst : (p, u) ∈ st.symlinks := by
      rcases applyCreateUpdate_mem (collectOnDisk st) desired st p u hmem1 with h | h
      · exact h
      · exact absurd h hnotin
    have hond : (p, u) ∈ collectOnDisk st := by
      apply List.mem_filter.mpr
      refine ⟨hst, ?_⟩
      rcases hrp with h | h
      · simp [h]
      · simp [h]
    exact applyRemove_removes desired (collectOnDisk st) _ p u u hond hdesnone hmem
  · intro d hd hrd
    rcases hrd with hF | hS
    · rw [hfinal] at hd ⊢
      have hd3 : d ∈ (pruneEmptyDirs FILMS_DIR
          ((applyRemove desired (collectOnDisk st)
            (applyCreateUpdate (collectOnDisk st) desired st).1).1)).dirs := by
        unfold pruneEmptyDirs at hd
        exact pruneFold_dirs_subset _ _ d hd
      have hne3 := pruneEmptyDirs_no_empty FILMS_DIR _ d hd3 hF
      exact prune_shows_keeps_films_nonempty _ d hF hne3
    · rw [hfinal] at hd ⊢
      exact pruneEmptyDirs_no_empty SHOWS_DIR _ d hd hS

/-- Desired map of the C3 witness. -/
def c3Desired : List (FsPath × String) := [(c1Path, "/zurg/A/A.mkv")]

/-- Starting state of the C3 witness: one stale symlink in the shows tree
and its directory chain. -/
def c3State : FsState :=
  ⟨[(["media", "shows", "Old", "old.mkv"], "/zurg/old.mkv")],
   [["media"], ["media", "films"], ["media", "shows"], ["media", "shows", "Old"]]⟩

/-- Witness for C3 at a concrete input: the desired symlink reads back and
the created film directory is non-empty after Phase D. -/
theorem claim_C3_witness :
    lookupA ((phaseDBuildSymlinks c3Desired c3State).1).symlinks c1Path
      = some "/zurg/A/A.mkv"
    ∧ isEmptyDir (phaseDBuildSymlinks c3Desired c3State).1
        ["media", "films", "A (2020)"] = false := by
  have h := claim_C3_phase_d_reconciles c3Desired c3State
    (by decide) (by decide) (by decide)
  exact ⟨h.1 (c1Path, "/zurg/A/A.mkv") (by decide),
    h.2.2 ["media", "films", "A (2020)"] (by decide) (by decide)⟩
